import Mathlib

/-!
Verification of the `jeni` dependency-injection engine (`jeni.py`).

This file shallowly embeds the data model and the operations of the
`Injector` class: note parsing (`parse_note`), the class-hierarchy provider
registry (`register` / `lookup`), the generator-based two-phase provider
lifecycle (`GeneratorProvider`), memoized resolution (`get` /
`handle_provider`), argument preparation (`prepare_notes`), lazy deferred
application (the closure returned by `Injector.partial`, modelled as
`callWrapper` over explicit wrapper state), and teardown (`close`).

Python values are embedded into the dynamic universe `Obj`; Python
exceptions become the `JErr` error type threaded through `Except`; the
mutable injector object becomes explicit state passing over `InjState`.
Mutual recursion between resolution and argument preparation is made total
with an explicit fuel parameter; running out of fuel yields the
distinguished error `JErr.fuel`, which never occurs for the concrete
executions considered here.
-/

set_option maxHeartbeats 1000000

deriving instance DecidableEq for Except

namespace Jeni

/-- Dynamic universe of Python values used by the engine: `None`, booleans,
integers, strings, tuples (encoded as `tnil`/`tcons` chains, built with the
smart constructor `Obj.tup`), references to plain callables (`fn`), lazy
deferred-application wrappers returned by `Injector.partial` (`wrapper`,
indexed into the injector state), and `functools`-style bound calls
produced by eager deferred application (`bound`, holding the already
resolved positional arguments as a tuple and keyword arguments as a tuple
of key/value pairs). -/
inductive Obj where
  | none : Obj
  | bool (b : Bool) : Obj
  | int (n : Int) : Obj
  | str (s : String) : Obj
  | tnil : Obj
  | tcons (hd tl : Obj) : Obj
  | fn (fid : Nat) : Obj
  | wrapper (wid : Nat) : Obj
  | bound (fid : Nat) (args kwargs : Obj) : Obj
deriving DecidableEq, Repr

/-- Build a tuple value from a list of elements. -/
def Obj.tup : List Obj → Obj
  | [] => .tnil
  | x :: xs => .tcons x (Obj.tup xs)

/-- Decode a tuple value back into its element list; `none` when the value
is not a tuple. -/
def Obj.asTuple : Obj → Option (List Obj)
  | .tnil => some []
  | .tcons x xs =>
    match Obj.asTuple xs with
    | Option.none => Option.none
    | some l => some (x :: l)
  | _ => Option.none

/-- Error taxonomy of the engine, mirroring the Python exception classes
raised in `jeni.py`. `unresolvable` is the `LookupError` raised by
`Injector.get` when `lookup` fails; `keyError` is the raw `LookupError`
raised by `Injector.lookup`; `unset` is `UnsetError` (a `LookupError`
subclass) with its optional attached note; `runtimeClosed` is the
injector's own `RuntimeError('already closed')`. The generator-provider
contract violations are `notInitialized`, `didNotYield`, `didNotStop`,
`ignoredExit` (all `RuntimeError` in Python) and `noGetByName`
(`TypeError`). `fuel` is the out-of-fuel marker of the embedding. -/
inductive JErr where
  | unresolvable (note : Obj) : JErr
  | keyError (basenote : Obj) : JErr
  | unset (msg : String) (note : Option Obj) : JErr
  | runtimeClosed : JErr
  | notInitialized : JErr
  | didNotYield : JErr
  | didNotStop : JErr
  | ignoredExit : JErr
  | noGetByName : JErr
  | typeErr (s : String) : JErr
  | valueErr (s : String) : JErr
  | attrErr (s : String) : JErr
  | custom (s : String) : JErr
  | fuel : JErr
deriving DecidableEq, Repr

/-- True exactly for the errors that are instances of Python's
`LookupError` class: the two `LookupError`s raised by the engine itself
and `UnsetError` (declared as a `LookupError` subclass in `jeni.py`). -/
def JErr.isLookupError : JErr → Bool
  | .unresolvable _ => true
  | .keyError _ => true
  | .unset _ _ => true
  | _ => false

/-- Split a character list at the first `':'`, returning the parts left
and right of it, or `none` when no `':'` occurs. On a newline-free core
this is what the `jeni.py` note regex `re_note` computes: group 1 is
non-greedy so it stops at the first colon, group 2 greedily takes the
rest (possibly the empty string) and is `None` exactly when no colon is
present; `re_note_match` below adds the newline handling of the regex
anchors. -/
def splitFirstColon : List Char → Option (List Char × List Char)
  | [] => Option.none
  | c :: rest =>
    if c = ':' then some ([], rest)
    else match splitFirstColon rest with
      | Option.none => Option.none
      | some (l, r) => some (c :: l, r)

/-- Drop a single trailing newline from a character list, mirroring how
the `$` anchor of Python's `re` matches at the end of the string or just
before one newline at its very end. -/
def stripTrailingNewline (cs : List Char) : List Char :=
  match cs.getLast? with
  | some c => if c = '\n' then cs.dropLast else cs
  | Option.none => cs

/-- Semantics of `re_note.match` on a string: `.` never matches a
newline and `$` matches only at the end or just before one trailing
newline, so the regex strips at most one trailing newline, fails to match
(returns Python `None`) when any other newline remains, and otherwise
splits at the first `':'`, the qualifier group being `None` exactly when
no colon is present. -/
def re_note_match (cs : List Char) : Option (List Char × Option (List Char)) :=
  let core := stripTrailingNewline cs
  if '\n' ∈ core then Option.none
  else
    match splitFirstColon core with
    | Option.none => some (core, Option.none)
    | some (l, r) => some (l, some r)

/-- Parse a note token into `(base, qualifier)`, following
`Injector.parse_note`: a 2-tuple is returned unchanged, a tuple of any
other length raises `ValueError`, a string is matched against `re_note`
(raising `AttributeError` from `match.groups()` when the regex does not
match, which happens exactly on a non-trailing newline), and every other
object is an opaque identity note with no qualifier. -/
def parse_note (note : Obj) : Except JErr (Obj × Obj) :=
  match note.asTuple with
  | some [a, b] => .ok (a, b)
  | some _ => .error (.valueErr "tuple annotations must be length 2")
  | Option.none =>
    match note with
    | .str s =>
      match re_note_match s.toList with
      | Option.none => .error (.attrErr "NoneType object has no attribute groups")
      | some (b, Option.none) => .ok (.str (String.mk b), .none)
      | some (b, some r) => .ok (.str (String.mk b), .str (String.mk r))
    | other => .ok (other, .none)

/-- State of a suspended Python generator object. `done` means exhausted:
`next`/`send` raise `StopIteration`. `step onResume ignoresExit` is a
generator suspended at a yield: resuming with a sent value `v` runs
`onResume v`, which either yields again (`some (value, nextState)`) or
terminates (`none`, i.e. `StopIteration`); `ignoresExit` records whether
the generator would answer `generator.close()` by yielding again instead
of exiting (Python then raises `RuntimeError`). -/
inductive GenCode where
  | done : GenCode
  | step (onResume : Obj → Option (Obj × GenCode)) (ignoresExit : Bool) : GenCode

/-- Resume a generator (`next(gen)` resumes with `Obj.none`, `gen.send(v)`
with `v`): returns the yielded value (or `none` for `StopIteration`) and
the generator state afterwards. -/
def gnext (g : GenCode) (v : Obj) : Option Obj × GenCode :=
  match g with
  | .done => (Option.none, .done)
  | .step f _ =>
    match f v with
    | Option.none => (Option.none, .done)
    | some (y, k) => (some y, k)

/-- Model of `gen.close()`: signals `GeneratorExit` into the generator.
A generator that ignores the signal makes Python raise `RuntimeError`;
otherwise the generator is exhausted afterwards. -/
def gclose (g : GenCode) : Except JErr GenCode :=
  match g with
  | .done => .ok .done
  | .step _ ignores => if ignores then .error .ignoredExit else .ok .done

/-- State of a `GeneratorProvider` object: the wrapped generator, whether
it was registered as supporting get-by-name, the `initialized` flag, the
current generator state and the captured first yielded value. -/
structure GenProvState where
  support_name : Bool
  initialized : Bool
  generator : GenCode
  init_value : Obj

namespace GeneratorProvider

/-- Model of `GeneratorProvider.init`: create the generator by calling the
generator function (here: its body already applied to arguments), advance
it to the first yield; if it runs to completion without yielding, raise
`RuntimeError` (didn't yield); otherwise mark initialized and capture the
initial value. -/
def init (g : GenCode) (sn : Bool) : Except JErr (GenProvState × Obj) :=
  match gnext g Obj.none with
  | (Option.none, _) => .error .didNotYield
  | (some v, k) =>
    .ok ({ support_name := sn, initialized := true, generator := k, init_value := v }, v)

/-- Model of `GeneratorProvider.get`: fails when not initialized; with no
name returns the captured initial value; with a name requires
`support_name`, then resumes the generator with the name, failing when it
terminates instead of yielding. -/
def get (p : GenProvState) (name : Obj) : Except JErr Obj × GenProvState :=
  if p.initialized = false then (.error .notInitialized, p)
  else if name = Obj.none then (.ok p.init_value, p)
  else if p.support_name = false then (.error .noGetByName, p)
  else
    match gnext p.generator name with
    | (Option.none, g') => (.error .didNotYield, { p with generator := g' })
    | (some v, g') => (.ok v, { p with generator := g' })

/-- Model of `GeneratorProvider.close`: fails when not initialized; when
get-by-name is supported, first signals `GeneratorExit` via
`gen.close()`; then resumes once expecting termination, failing with
`RuntimeError` (didn't stop) when the generator yields again. No flag
records that close already ran. -/
def close (p : GenProvState) : Except JErr Unit × GenProvState :=
  if p.initialized = false then (.error .notInitialized, p)
  else
    match (if p.support_name then gclose p.generator else .ok p.generator) with
    | .error e => (.error e, p)
    | .ok g' =>
      match gnext g' Obj.none with
      | (Option.none, g'') => (.ok (), { p with generator := g'' })
      | (some _, g'') => (.error .didNotStop, { p with generator := g'' })

end GeneratorProvider

/-- Mutable world of provider-backed data: a list of cells that plain
callables may read. Mutating a provider's underlying value between calls
is modelled by running with a different world. -/
def World : Type := List Obj

/-- Live object stored in `Injector.instances`: either a constructed
`Provider`-class instance (with its `get(name)` behavior and the result of
its argumentless `close()`), or a `GeneratorProvider`. -/
inductive Inst where
  | providerObj (getFn : Obj → World → Except JErr Obj) (closeFn : Except JErr Unit) : Inst
  | genProvider (p : GenProvState) : Inst

/-- Description of a plain callable: its attached annotations (`__notes__`,
positional notes plus keyword-name/note pairs; `none` when the callable is
not annotated) and its behavior when called with positional arguments,
keyword arguments and the current world. -/
structure FnDef where
  notes : Option (List Obj × List (String × Obj))
  call : List Obj → List (String × Obj) → World → Except JErr Obj

/-- Description of a registered `Provider` class: the annotations on its
constructor (if any) and the instance its construction produces from the
resolved constructor arguments. -/
structure KlassDef where
  initNotes : Option (List Obj × List (String × Obj))
  make : List Obj → List (String × Obj) → Inst

/-- Description of a registered generator function: its `support_name`
flag, its annotations (if any), and the generator its call produces from
the resolved arguments. -/
structure GenFnDef where
  support_name : Bool
  notes : Option (List Obj × List (String × Obj))
  body : List Obj → List (String × Obj) → GenCode

/-- Provider descriptor as stored in a registry table: a `Provider` class,
a generator function, or a plain callable (referenced by id into the
function table, as directive payloads also are). -/
inductive PDescr where
  | klass (k : KlassDef) : PDescr
  | genfn (g : GenFnDef) : PDescr
  | func (fid : Nat) : PDescr

/-- Per-class registry state: each class id that ever registered owns a
table mapping base notes to provider descriptors (Python: the
`provider_registry` dict created in `vars(cls)` on first registration). -/
def RegState : Type := List (Nat × List (Obj × PDescr))

/-- Generic association-list lookup (Python `dict` access). -/
def alook {κ α : Type} [DecidableEq κ] (l : List (κ × α)) (k : κ) : Option α :=
  match l with
  | [] => Option.none
  | (k', v) :: rest => if k' = k then some v else alook rest k

/-- Generic association-list update: replace in place when the key is
present, append otherwise (Python `dict` assignment). -/
def aput {κ α : Type} [DecidableEq κ] (l : List (κ × α)) (k : κ) (v : α) : List (κ × α) :=
  match l with
  | [] => [(k, v)]
  | (k', v') :: rest => if k' = k then (k, v) :: rest else (k', v') :: aput rest k v

/-- Merge of keyword dictionaries, Python `d.update(d2)`: every binding of
`d2` is written into `d`, later writes overriding earlier ones. -/
def supdate {α : Type} (d d2 : List (String × α)) : List (String × α) :=
  match d2 with
  | [] => d
  | (k, v) :: rest => supdate (aput d k v) rest

/-- Model of the classmethod `Injector.register`: parse the note, then
store the descriptor under its base note in the registering class's own
table only, creating that table if the class never registered before. -/
def register (reg : RegState) (cid : Nat) (note : Obj) (p : PDescr) : Except JErr RegState :=
  match parse_note note with
  | .error e => .error e
  | .ok (basenote, _) =>
    let tbl := (alook reg cid).getD []
    .ok (aput reg cid (aput tbl basenote p))

/-- Model of the classmethod `Injector.lookup`: walk the method resolution
order; skip classes without their own registry table; return the first
table entry for the base note; `none` when no class in the chain has it
(Python raises `LookupError(repr(basenote))`). -/
def lookupNS (reg : RegState) (mro : List Nat) (basenote : Obj) : Option PDescr :=
  match mro with
  | [] => Option.none
  | c :: rest =>
    match alook reg c with
    | Option.none => lookupNS reg rest basenote
    | some tbl =>
      match alook tbl basenote with
      | some p => some p
      | Option.none => lookupNS reg rest basenote

/-- Static environment of one injector: the class registry, the injector
class's method resolution order, and the table of plain callables. -/
structure Env where
  reg : RegState
  mro : List Nat
  fns : Nat → FnDef

/-- State of one closure returned by `Injector.partial`: the wrapped
callable, the bound arguments given at directive-construction time, and
the `arg_pack` attribute caching the resolved arguments after the first
invocation. -/
structure WrapperState where
  func : FnDef
  userArgs : List Obj
  userKwargs : List (String × Obj)
  argPack : Option (List Obj × List (String × Obj))

/-- Mutable state of one `Injector` instance: the `closed` flag, live
provider `instances`, the memoized unqualified `values` cache, the
append-only `get_order`, request `stats`, plus the allocated lazy
wrappers, and two ghost trace fields used only by the verification:
`callCount` counts producing provider/factory invocations per base note,
and `closedLog` records each instance-close attempt in order. -/
structure InjState where
  closed : Bool
  instances : List (Obj × Inst)
  values : List (Obj × Obj)
  get_order : List Obj
  stats : List (Obj × Nat)
  wrappers : List WrapperState
  callCount : List (Obj × Nat)
  closedLog : List Obj

/-- Freshly constructed injector state (`Injector.__init__`). -/
def InjState.init : InjState :=
  { closed := false, instances := [], values := [], get_order := [],
    stats := [], wrappers := [], callCount := [], closedLog := [] }

/-- Record a request for a note in `stats` (even if it later fails). -/
def bumpStats (note : Obj) (s : InjState) : InjState :=
  { s with stats := aput s.stats note ((alook s.stats note).getD 0 + 1) }

/-- Ghost bump of the producing-invocation counter for a base note. -/
def bumpCall (b : Obj) (s : InjState) : InjState :=
  { s with callCount := aput s.callCount b ((alook s.callCount b).getD 0 + 1) }

/-- Write a memoized unqualified value (`self.values[basenote] = value`). -/
def setValue (b : Obj) (v : Obj) (s : InjState) : InjState :=
  { s with values := aput s.values b v }

/-- Write a live instance (`self.instances[basenote] = provider`). -/
def setInstance (b : Obj) (i : Inst) (s : InjState) : InjState :=
  { s with instances := aput s.instances b i }

/-- Crude printable form of a value, used only inside error messages. -/
def reprObj : Obj → String
  | .none => "None"
  | .bool true => "True"
  | .bool false => "False"
  | .int n => toString n
  | .str s => s
  | .tnil => "()"
  | .tcons _ _ => "(...)"
  | .fn fid => "function " ++ toString fid
  | .wrapper wid => "wrapper " ++ toString wid
  | .bound fid _ _ => "bound " ++ toString fid

/-- Note-enrichment step of `Injector._handle_provider`: an `UnsetError`
escaping the producing call is re-raised with the originating note
appended to its message and attached as its `note`; every other error
propagates unchanged. -/
def enrichUnset (e : JErr) (note : Obj) : JErr :=
  match e with
  | .unset msg _ =>
    .unset (if msg = "" then reprObj note else msg ++ ": " ++ reprObj note) (some note)
  | other => other

/-- Recognize a `maybe` directive: a 2-tuple whose first element is the
string constant `MAYBE`; returns the wrapped payload note. -/
def maybePayload : Obj → Option Obj
  | .tcons x (.tcons p .tnil) => if x = .str "maybe" then some p else Option.none
  | _ => Option.none

/-- Decode the items tuple of a deferred directive's keyword arguments
(`tuple(kw.items())`) back into a keyword dictionary. -/
def decodeKwItems : List Obj → Option (List (String × Obj))
  | [] => some []
  | .tcons (.str k) (.tcons v .tnil) :: rest =>
    match decodeKwItems rest with
    | Option.none => Option.none
    | some l => some ((k, v) :: l)
  | _ => Option.none

/-- Decode the payload of a `partial`/`eager_partial` directive,
`(fn, bound_args, bound_kwargs_items)`; `none` models the `TypeError`
Python raises when unpacking a malformed payload. -/
def decodeDirPayload (payload : Obj) : Option (Nat × List Obj × List (String × Obj)) :=
  match payload.asTuple with
  | some [.fn fid, argsT, kwT] =>
    match argsT.asTuple with
    | Option.none => Option.none
    | some args =>
      match kwT.asTuple with
      | Option.none => Option.none
      | some items =>
        match decodeKwItems items with
        | Option.none => Option.none
        | some kws => some (fid, args, kws)
  | _ => Option.none

/-- Encode a keyword dictionary back into a tuple of 2-tuples. -/
def encodeKw (kws : List (String × Obj)) : Obj :=
  Obj.tup (kws.map (fun kv => Obj.tup [.str kv.1, kv.2]))

/-- Producing call on a live instance, the tail of
`Injector._handle_provider`: call `instance.get`, passing the name exactly
when one was given; memoize the value only for unqualified requests;
enrich and re-raise `UnsetError`s. The ghost invocation counter of the
base note is bumped for the call. The `get` methods of instances are
modelled as unannotated, which all instances arising here are. -/
def useInst (inst : Inst) (note basenote name : Obj) (w : World) (s : InjState) :
    Except JErr Obj × InjState :=
  let s := bumpCall basenote s
  match inst with
  | .providerObj getFn _ =>
    match getFn name w with
    | .ok v => if name = Obj.none then (.ok v, setValue basenote v s) else (.ok v, s)
    | .error e => (.error (enrichUnset e note), s)
  | .genProvider p =>
    let r := GeneratorProvider.get p name
    let s := setInstance basenote (.genProvider r.2) s
    match r.1 with
    | .ok v => if name = Obj.none then (.ok v, setValue basenote v s) else (.ok v, s)
    | .error e => (.error (enrichUnset e note), s)

/-- Resolution of a `partial` directive inside `Injector.get`: unpack the
payload, assert the target is annotated (as `Injector.partial` does via
`get_annotations`), and return a fresh lazy wrapper with an empty
`arg_pack`; no provider lookup or note resolution happens here. -/
def mkLazy (env : Env) (payload : Obj) (s : InjState) : Except JErr Obj × InjState :=
  match decodeDirPayload payload with
  | Option.none => (.error (.typeErr "cannot unpack directive payload"), s)
  | some (fid, ua, uk) =>
    match (env.fns fid).notes with
    | Option.none => (.error (.attrErr "does not have annotations"), s)
    | some _ =>
      (.ok (.wrapper s.wrappers.length),
        { s with wrappers := s.wrappers ++ [⟨env.fns fid, ua, uk, Option.none⟩] })

mutual

/-- Model of `Injector.get`: fail when closed; record stats; intercept
`partial`/`eager_partial` directive tuples; otherwise resolve the note. -/
def get : Nat → Env → World → Obj → InjState → Except JErr Obj × InjState
  | 0, _, _, _, s => (.error .fuel, s)
  | n+1, env, w, note, s =>
    if s.closed = true then (.error .runtimeClosed, s)
    else
      let s1 := bumpStats note s
      match note with
      | .tcons d (.tcons payload .tnil) =>
        if d = .str "partial" then mkLazy env payload s1
        else if d = .str "eager_partial" then runEager n env w payload s1
        else getResolve n env w note s1
      | _ => getResolve n env w note s1

/-- Tail of `Injector.get` after the directive check: parse the note,
serve unqualified requests from the `values` cache, look the base note up
in the registry chain (failure becomes the `Unresolvable` error carrying
the note), and hand over to the provider. -/
def getResolve : Nat → Env → World → Obj → InjState → Except JErr Obj × InjState
  | 0, _, _, _, s => (.error .fuel, s)
  | n+1, env, w, note, s =>
    match parse_note note with
    | .error e => (.error e, s)
    | .ok (basenote, name) =>
      match (if name = Obj.none then alook s.values basenote else Option.none) with
      | some v => (.ok v, s)
      | Option.none =>
        match lookupNS env.reg env.mro basenote with
        | Option.none => (.error (.unresolvable note), s)
        | some p => handleProv n env w p note s

/-- Model of `Injector.handle_provider`: run the core resolution, then on
success append the base note to `get_order` unless it is already there. -/
def handleProv : Nat → Env → World → PDescr → Obj → InjState → Except JErr Obj × InjState
  | 0, _, _, _, _, s => (.error .fuel, s)
  | n+1, env, w, p, note, s =>
    match parse_note note with
    | .error e => (.error e, s)
    | .ok (basenote, name) =>
      match handleProvCore n env w p note basenote name s with
      | (.error e, s₁) => (.error e, s₁)
      | (.ok v, s₁) =>
        if basenote ∈ s₁.get_order then (.ok v, s₁)
        else (.ok v, { s₁ with get_order := s₁.get_order ++ [basenote] })

/-- Model of `Injector._handle_provider`: reuse an existing instance, or
construct a provider class (resolving its constructor's annotation first),
or initialize a generator provider (storing instance and initial value,
and answering unqualified requests with the initial value directly), or
fall through to a plain callable. -/
def handleProvCore :
    Nat → Env → World → PDescr → Obj → Obj → Obj → InjState → Except JErr Obj × InjState
  | 0, _, _, _, _, _, _, s => (.error .fuel, s)
  | n+1, env, w, p, note, basenote, name, s =>
    match alook s.instances basenote with
    | some inst => useInst inst note basenote name w s
    | Option.none =>
      match p with
      | .klass k =>
        match k.initNotes with
        | some (pos, kws) =>
          match prepareNotes n env w pos kws false s with
          | (.error e, s₁) => (.error e, s₁)
          | (.ok (args, kwargs), s₁) =>
            let inst := k.make args kwargs
            useInst inst note basenote name w (setInstance basenote inst s₁)
        | Option.none =>
          let inst := k.make [] []
          useInst inst note basenote name w (setInstance basenote inst s)
      | .genfn g =>
        match initGenerator n env w g s with
        | (.error e, s₁) => (.error e, s₁)
        | (.ok (gp, value), s₁) =>
          let s₂ := bumpCall basenote (setValue basenote value
            (setInstance basenote (.genProvider gp) s₁))
          if name = Obj.none then (.ok value, s₂)
          else useInst (.genProvider gp) note basenote name w s₂
      | .func fid => useFn n env w fid note basenote name s

/-- Producing call on a registered plain callable: an annotated callable
is first wrapped by `Injector.partial` and the wrapper invoked (so its own
annotation is resolved with keyword notes implicitly optional); an
unannotated callable is called directly; the value is memoized only for
unqualified requests; `UnsetError`s are enriched with the note. -/
def useFn : Nat → Env → World → Nat → Obj → Obj → Obj → InjState → Except JErr Obj × InjState
  | 0, _, _, _, _, _, _, s => (.error .fuel, s)
  | n+1, env, w, fid, note, basenote, name, s =>
    let F := env.fns fid
    let runKw : List (String × Obj) := if name = Obj.none then [] else [("name", name)]
    match F.notes with
    | some _ =>
      let wid := s.wrappers.length
      let s₁ := bumpCall basenote
        { s with wrappers := s.wrappers ++ [⟨F, [], [], Option.none⟩] }
      match callWrapper n env w wid [] runKw s₁ with
      | (.ok v, s₂) => if name = Obj.none then (.ok v, setValue basenote v s₂) else (.ok v, s₂)
      | (.error e, s₂) => (.error (enrichUnset e note), s₂)
    | Option.none =>
      let s₁ := bumpCall basenote s
      match F.call [] runKw w with
      | .ok v => if name = Obj.none then (.ok v, setValue basenote v s₁) else (.ok v, s₁)
      | .error e => (.error (enrichUnset e note), s₁)

/-- Model of `Injector.prepare_notes`: resolve all positional notes, then
the keyword notes. -/
def prepareNotes :
    Nat → Env → World → List Obj → List (String × Obj) → Bool → InjState →
      Except JErr (List Obj × List (String × Obj)) × InjState
  | 0, _, _, _, _, _, s => (.error .fuel, s)
  | n+1, env, w, pos, kws, flag, s =>
    match processPos n env w pos s with
    | (.error e, s₁) => (.error e, s₁)
    | (.ok args, s₁) =>
      match processKws n env w kws flag [] s₁ with
      | (.error e, s₂) => (.error e, s₂)
      | (.ok kwargs, s₂) => (.ok (args, kwargs), s₂)

/-- Positional-note resolution inside `prepare_notes`: every note is
resolved with `get`, and any failure propagates to the caller. -/
def processPos : Nat → Env → World → List Obj → InjState → Except JErr (List Obj) × InjState
  | _, _, _, [], s => (.ok [], s)
  | 0, _, _, _ :: _, s => (.error .fuel, s)
  | n+1, env, w, note :: rest, s =>
    match get n env w note s with
    | (.error e, s₁) => (.error e, s₁)
    | (.ok v, s₁) =>
      match processPos n env w rest s₁ with
      | (.error e, s₂) => (.error e, s₂)
      | (.ok vs, s₂) => (.ok (v :: vs), s₂)

/-- Keyword-note resolution inside `prepare_notes`: a `maybe`-wrapped note
resolves its payload and is silently dropped on a `LookupError`-class
failure; with the `__partial` flag every keyword note is treated the same
optional way; otherwise failures propagate. `acc` is the keyword dict
built so far. -/
def processKws :
    Nat → Env → World → List (String × Obj) → Bool → List (String × Obj) → InjState →
      Except JErr (List (String × Obj)) × InjState
  | _, _, _, [], _, acc, s => (.ok acc, s)
  | 0, _, _, _ :: _, _, _, s => (.error .fuel, s)
  | n+1, env, w, (a, note) :: rest, flag, acc, s =>
    match maybePayload note with
    | some p =>
      match get n env w p s with
      | (.ok v, s₁) => processKws n env w rest flag (aput acc a v) s₁
      | (.error e, s₁) =>
        if e.isLookupError then processKws n env w rest flag acc s₁ else (.error e, s₁)
    | Option.none =>
      if flag then
        match get n env w note s with
        | (.ok v, s₁) => processKws n env w rest flag (aput acc a v) s₁
        | (.error e, s₁) =>
          if e.isLookupError then processKws n env w rest flag acc s₁ else (.error e, s₁)
      else
        match get n env w note s with
        | (.ok v, s₁) => processKws n env w rest flag (aput acc a v) s₁
        | (.error e, s₁) => (.error e, s₁)

/-- Model of `Injector.prepare_callable`: read the callable's annotation
(failing with `AttributeError` when absent) and prepare its notes. -/
def prepareCallable :
    Nat → Env → World → FnDef → Bool → InjState →
      Except JErr (List Obj × List (String × Obj)) × InjState
  | 0, _, _, _, _, s => (.error .fuel, s)
  | n+1, env, w, F, flag, s =>
    match F.notes with
    | Option.none => (.error (.attrErr "does not have annotations"), s)
    | some (pos, kws) => prepareNotes n env w pos kws flag s

/-- Invocation of the closure returned by `Injector.partial`: when the
`arg_pack` is already cached, no resolution happens and the wrapped
callable is invoked with the cached arguments (extended by call-time
arguments); on the first invocation the callable's annotation is resolved
with the `__partial` flag, combined with the directive-time bound
arguments, cached, and used. -/
def callWrapper :
    Nat → Env → World → Nat → List Obj → List (String × Obj) → InjState →
      Except JErr Obj × InjState
  | 0, _, _, _, _, _, s => (.error .fuel, s)
  | n+1, env, w, wid, runArgs, runKw, s =>
    match s.wrappers[wid]? with
    | Option.none => (.error (.typeErr "invalid wrapper"), s)
    | some wst =>
      match wst.argPack with
      | some (pa, pk) => (wst.func.call (pa ++ runArgs) (supdate pk runKw) w, s)
      | Option.none =>
        match prepareCallable n env w wst.func true s with
        | (.error e, s₁) => (.error e, s₁)
        | (.ok (ja, jk), s₁) =>
          let pa := ja ++ wst.userArgs
          let pk := supdate jk wst.userKwargs
          let s₂ := { s₁ with
            wrappers := s₁.wrappers.set wid { wst with argPack := some (pa, pk) } }
          (wst.func.call (pa ++ runArgs) (supdate pk runKw) w, s₂)

/-- Resolution of an `eager_partial` directive: unpack, resolve the
target's annotation immediately (keyword notes optional), and return a
`functools.partial`-style bound call holding the resolved arguments
followed by the directive-time bound arguments. -/
def runEager : Nat → Env → World → Obj → InjState → Except JErr Obj × InjState
  | 0, _, _, _, s => (.error .fuel, s)
  | n+1, env, w, payload, s =>
    match decodeDirPayload payload with
    | Option.none => (.error (.typeErr "cannot unpack directive payload"), s)
    | some (fid, ua, uk) =>
      match prepareCallable n env w (env.fns fid) true s with
      | (.error e, s₁) => (.error e, s₁)
      | (.ok (args, kwargs), s₁) =>
        (.ok (.bound fid (Obj.tup (args ++ ua)) (encodeKw (supdate kwargs uk))), s₁)

/-- Model of `Injector.init_generator`: resolve the generator function's
own annotation when present (without the `__partial` flag), then
initialize a `GeneratorProvider` with the resulting arguments. -/
def initGenerator :
    Nat → Env → World → GenFnDef → InjState → Except JErr (GenProvState × Obj) × InjState
  | 0, _, _, _, s => (.error .fuel, s)
  | n+1, env, w, g, s =>
    match g.notes with
    | some (pos, kws) =>
      match prepareNotes n env w pos kws false s with
      | (.error e, s₁) => (.error e, s₁)
      | (.ok (args, kwargs), s₁) =>
        match GeneratorProvider.init (g.body args kwargs) g.support_name with
        | .error e => (.error e, s₁)
        | .ok r => (.ok r, s₁)
    | Option.none =>
      match GeneratorProvider.init (g.body [] []) g.support_name with
      | .error e => (.error e, s)
      | .ok r => (.ok r, s)

end

/-- Close one instance: a provider object's `close()` has its fixed
outcome; a generator provider runs `GeneratorProvider.close`. -/
def closeInst : Inst → Except JErr Unit × Inst
  | .providerObj g c => (c, .providerObj g c)
  | .genProvider p =>
    let r := GeneratorProvider.close p
    (r.1, .genProvider r.2)

/-- Teardown loop of `Injector.close` over the given sequence of base
notes (already reversed by the caller): base notes without an instance are
skipped; each attempted instance close is recorded in the ghost
`closedLog`; a raising close aborts the loop with the error. -/
def closeLoop : List Obj → InjState → Except JErr Unit × InjState
  | [], s => (.ok (), s)
  | b :: rest, s =>
    match alook s.instances b with
    | Option.none => closeLoop rest s
    | some inst =>
      let s₁ := { s with closedLog := s.closedLog ++ [b] }
      let r := closeInst inst
      let s₂ := setInstance b r.2 s₁
      match r.1 with
      | .error e => (.error e, s₂)
      | .ok _ => closeLoop rest s₂

/-- Model of `Injector.close`: fail when already closed; close the
instances of `get_order` in reverse order; set the `closed` flag only
after the whole loop succeeded. -/
def close (s : InjState) : Except JErr Unit × InjState :=
  if s.closed = true then (.error .runtimeClosed, s)
  else
    match closeLoop s.get_order.reverse s with
    | (.ok _, s₁) => (.ok (), { s₁ with closed := true })
    | (.error e, s₁) => (.error e, s₁)

/-- Model of `Injector.apply`: prepare the callable's annotated arguments,
append caller-supplied positional arguments, override with caller-supplied
keyword arguments, and call. -/
def applyFn (n : Nat) (env : Env) (w : World) (F : FnDef) (extraArgs : List Obj)
    (extraKw : List (String × Obj)) (s : InjState) : Except JErr Obj × InjState :=
  match prepareCallable n env w F false s with
  | (.error e, s₁) => (.error e, s₁)
  | (.ok (args, kwargs), s₁) => (F.call (args ++ extraArgs) (supdate kwargs extraKw) w, s₁)

/-- State-evolution invariant of every resolution step: the `closed` flag
is untouched, `get_order` is only ever extended at the end, and its
freedom from duplicates is preserved. -/
structure Pres (s s' : InjState) : Prop where
  closed_eq : s'.closed = s.closed
  order_ext : ∃ t, s'.get_order = s.get_order ++ t
  nodup : s.get_order.Nodup → s'.get_order.Nodup

/-- Invariant used for the non-atomic-close theorem: no stored provider
instance has a `close()` outcome equal to the injector's own
`InjectorClosed`-class error. -/
def noRTC (s : InjState) : Prop :=
  ∀ b gf cfn, alook s.instances b = some (.providerObj gf cfn) → cfn ≠ .error .runtimeClosed

/-- Unannotated factory returning a fixed integer (used in examples,
mirrors `Injector.value`). -/
def constDef (n : Int) : FnDef :=
  { notes := Option.none, call := fun _ _ _ => .ok (.int n) }

/-- Annotated product function of the spec scenario `f(x, y) = x * y`. -/
def mulDef : FnDef :=
  { notes := some ([.str "x", .str "y"], [])
    call := fun args _ _ =>
      match args with
      | [.int a, .int b] => .ok (.int (a * b))
      | _ => .error (.typeErr "bad arguments") }

/-- Example environment: base note `x` bound to constant 6 and `y` to
constant 7 in the single registering class. -/
def envXY : Env :=
  { reg := [(0, [(.str "x", .func 1), (.str "y", .func 2)])]
    mro := [0]
    fns := fun fid => if fid = 1 then constDef 6 else if fid = 2 then constDef 7 else mulDef }

/-- Qualifier-aware generator of the spec scenario: yields the unnamed
value first, then derived values for two get-by-name resumptions. -/
def thingGen : GenFnDef :=
  { support_name := true
    notes := Option.none
    body := fun _ _ =>
      let g2 : GenCode :=
        .step (fun name2 => some (.str ("thing with name " ++ reprObj name2), .done)) false
      let g1 : GenCode :=
        .step (fun name => some (.str ("thing with name " ++ reprObj name), g2)) false
      .step (fun _ => some (.str "thing without a name", g1)) false }

/-- Environment registering the qualifier-aware generator as `thing`. -/
def envThing : Env :=
  { reg := [(0, [(.str "thing", .genfn thingGen)])], mro := [0], fns := fun _ => constDef 0 }

/-- Recognize the two directive tuples intercepted by `Injector.get`
before parsing. -/
def isDirective : Obj → Bool
  | .tcons d (.tcons _ .tnil) => d = .str "partial" || d = .str "eager_partial"
  | _ => false

/-- Qualified provider instance used by the memoization witness: its get
returns the qualifier wrapped in a 1-tuple. -/
def provH : Obj → World → Except JErr Obj := fun q _ => .ok (.tcons q .tnil)

/-- Environment with base note `h` registered as a plain callable (the
registered descriptor is not consulted once a live instance exists). -/
def envH : Env :=
  { reg := [(0, [(.str "h", .func 1)])], mro := [0], fns := fun _ => constDef 0 }

/-- Injector state holding a live provider instance for `h` and a decoy
cached value, witnessing that qualified requests ignore the cache. -/
def sH : InjState :=
  { InjState.init with
    instances := [(.str "h", .providerObj provH (.ok ()))]
    values := [(.str "h", .int 99)] }

/-- Ancestor-only registry for the shadowing witness: class 0 registers
base note `x`. -/
def regA : RegState := [(0, [(.str "x", .func 10)])]

/-- Registry after the child class 1 re-registers `x` on top of `regA`. -/
def regAC : RegState := [(0, [(.str "x", .func 10)]), (1, [(.str "x", .func 11)])]

/-- Sequence of base notes whose instances `Injector.close` attempts to
close, in order: the reversed `get_order` restricted to base notes with a
live instance. -/
def closeSeq (s : InjState) : List Obj :=
  s.get_order.reverse.filter (fun b => (alook s.instances b).isSome)

/-- Initialized generator-provider state used in close-order witnesses:
one value already yielded, next resumption terminates. -/
def gpOne (v : Int) : GenProvState :=
  { support_name := false, initialized := true,
    generator := .step (fun _ => Option.none) false, init_value := .int v }

/-- Injector state in which base notes `a` then `b` were resolved from
generator providers, for the close-order witness. -/
def sAB : InjState :=
  { InjState.init with
    get_order := [.str "a", .str "b"]
    instances := [(.str "a", .genProvider (gpOne 1)), (.str "b", .genProvider (gpOne 2))] }

/-- Injector state for the non-atomic-close witness: `a` closes cleanly,
`c` has a provider instance whose close raises. -/
def sFail : InjState :=
  { InjState.init with
    get_order := [.str "a", .str "c"]
    instances := [(.str "a", .genProvider (gpOne 1)),
      (.str "c", .providerObj provH (.error (.custom "boom")))] }

/-- Uninitialized generator-provider state for the lifecycle witness. -/
def gpU : GenProvState :=
  { support_name := false, initialized := false, generator := .done, init_value := .none }

/-- Initialized generator-provider whose generator yields again instead of
terminating when resumed (violating the teardown contract). -/
def gpBad : GenProvState :=
  { support_name := false, initialized := true,
    generator := .step (fun _ => some (.int 1, .done)) false, init_value := .int 0 }

/-- factory distinguishing qualified from unqualified calls, for the
trailing-colon counterexample: 1 without a name, 2 with one. -/
def fnColon : FnDef :=
  { notes := Option.none
    call := fun _ kw _ =>
      match alook kw "name" with
      | Option.none => .ok (.int 1)
      | some _ => .ok (.int 2) }

/-- Environment registering `n` to the name-sensitive factory. -/
def envColon : Env :=
  { reg := [(0, [(.str "n", .func 1)])], mro := [0], fns := fun _ => fnColon }

/-- State with an unqualified value for `n` already cached. -/
def sColon : InjState := { InjState.init with values := [(.str "n", .int 1)] }

/-- Unannotated factory returning the first world cell, modelling a
provider whose value can be mutated between calls. -/
def worldFn : FnDef :=
  { notes := Option.none, call := fun _ _ w => .ok (w.headD (.int 0)) }

/-- Annotated target of the deferred-application witness: returns its
injected `dep` keyword. -/
def targetFn : FnDef :=
  { notes := some ([], [("dep", .str "d")])
    call := fun _ kw _ => .ok ((alook kw "dep").getD (.int (-1))) }

/-- Environment for the deferred-application witness: `d` provided by the
world-reading factory, function 0 the annotated target. -/
def envW : Env :=
  { reg := [(0, [(.str "d", .func 1)])], mro := [0]
    fns := fun fid => if fid = 0 then targetFn else worldFn }

/-- The `partial` directive note wrapping function 0 with no bound
arguments. -/
def pdirNote : Obj := Obj.tup [.str "partial", Obj.tup [.fn 0, Obj.tup [], Obj.tup []]]

example : parse_note (.str "object") = .ok (.str "object", .none) := by decide
example : parse_note (.str "object:") = .ok (.str "object", .str "") := by decide
example : parse_note (.str "a:b:c") = .ok (.str "a", .str "b:c") := by decide
example : parse_note (.int 3) = .ok (.int 3, .none) := by decide
example : parse_note (.tup [.str "x", .none]) = .ok (.str "x", .none) := by decide
example : parse_note (.tup [.str "x"]) = .error (.valueErr "tuple annotations must be length 2") := by decide

example : parse_note (.str "x:y\n") = .ok (.str "x", .str "y") := by decide
example : parse_note (.str "a\n") = .ok (.str "a", .none) := by decide
example : parse_note (.str "\n") = .ok (.str "", .none) := by decide
example : parse_note (.str "a\nb")
    = .error (.attrErr "NoneType object has no attribute groups") := by decide

example : (applyFn 10 envXY [] mulDef [] [] InjState.init).1 = .ok (.int 42) := by decide

example : (get 10 envXY [] (.str "x") InjState.init).1 = .ok (.int 6) := by decide

example :
    (get 10 envXY [] (.str "x") (get 10 envXY [] (.str "x") InjState.init).2).1
      = .ok (.int 6) := by decide

example : (get 10 envXY [] (.str "x") InjState.init).2.get_order = [.str "x"] := by decide

example : (get 10 envXY [] (.str "nope") InjState.init).1
    = .error (.unresolvable (.str "nope")) := by decide

example : (get 10 envThing [] (.str "thing") InjState.init).1
    = .ok (.str "thing without a name") := by decide

example : (get 10 envThing [] (.str "thing:foo") InjState.init).1
    = .ok (.str "thing with name foo") := by decide

example :
    (get 10 envThing [] (.str "thing:foo") (get 10 envThing [] (.str "thing") InjState.init).2).1
      = .ok (.str "thing with name foo") := by decide

example : parse_note (.str "object:name") = .ok (.str "object", .str "name") := by decide

theorem alook_aput {κ α : Type} [DecidableEq κ] (l : List (κ × α)) (k k' : κ) (v : α) :
    alook (aput l k v) k' = if k = k' then some v else alook l k' := by
  induction l with
  | nil => simp [aput, alook]
  | cons hd tl ih =>
    obtain ⟨k0, v0⟩ := hd
    by_cases h0 : k0 = k
    · subst h0
      by_cases h1 : k0 = k'
      · subst h1; simp [aput, alook]
      · simp [aput, alook, h1]
    · by_cases h1 : k0 = k'
      · subst h1
        have : ¬ k = k0 := fun h => h0 h.symm
        simp [aput, alook, h0, this]
      · simp [aput, alook, h0, h1, ih]

theorem alook_aput_self {κ α : Type} [DecidableEq κ] (l : List (κ × α)) (k : κ) (v : α) :
    alook (aput l k v) k = some v := by
  simp [alook_aput]

theorem Pres.same {s s' : InjState} (hc : s'.closed = s.closed)
    (ho : s'.get_order = s.get_order) : Pres s s' :=
  ⟨hc, ⟨[], by simp [ho]⟩, fun h => ho ▸ h⟩

theorem Pres.refl {s : InjState} : Pres s s := Pres.same rfl rfl

theorem Pres.trans {s₁ s₂ s₃ : InjState} (h1 : Pres s₁ s₂) (h2 : Pres s₂ s₃) : Pres s₁ s₃ := by
  refine ⟨h2.closed_eq.trans h1.closed_eq, ?_, fun h => h2.nodup (h1.nodup h)⟩
  obtain ⟨t1, ht1⟩ := h1.order_ext
  obtain ⟨t2, ht2⟩ := h2.order_ext
  exact ⟨t1 ++ t2, by simp [ht2, ht1]⟩

theorem pres_bumpStats (note : Obj) (s : InjState) : Pres s (bumpStats note s) :=
  Pres.same rfl rfl

theorem pres_bumpCall (b : Obj) (s : InjState) : Pres s (bumpCall b s) :=
  Pres.same rfl rfl

theorem pres_setValue (b v : Obj) (s : InjState) : Pres s (setValue b v s) :=
  Pres.same rfl rfl

theorem pres_setInstance (b : Obj) (i : Inst) (s : InjState) : Pres s (setInstance b i s) :=
  Pres.same rfl rfl

theorem useInst_closed (inst : Inst) (note b name : Obj) (w : World) (s : InjState) :
    (useInst inst note b name w s).2.closed = s.closed := by
  unfold useInst
  cases inst with
  | providerObj g c =>
    by_cases h : name = Obj.none
    · subst h
      cases hg : g Obj.none w <;> simp [hg, bumpCall, setValue, setInstance]
    · cases hg : g name w <;> simp [hg, h, bumpCall, setValue, setInstance]
  | genProvider p =>
    by_cases h : name = Obj.none
    · subst h
      cases hg : (GeneratorProvider.get p Obj.none).1 <;>
        simp [hg, bumpCall, setValue, setInstance]
    · cases hg : (GeneratorProvider.get p name).1 <;>
        simp [hg, h, bumpCall, setValue, setInstance]

theorem useInst_order (inst : Inst) (note b name : Obj) (w : World) (s : InjState) :
    (useInst inst note b name w s).2.get_order = s.get_order := by
  unfold useInst
  cases inst with
  | providerObj g c =>
    by_cases h : name = Obj.none
    · subst h
      cases hg : g Obj.none w <;> simp [hg, bumpCall, setValue, setInstance]
    · cases hg : g name w <;> simp [hg, h, bumpCall, setValue, setInstance]
  | genProvider p =>
    by_cases h : name = Obj.none
    · subst h
      cases hg : (GeneratorProvider.get p Obj.none).1 <;>
        simp [hg, bumpCall, setValue, setInstance]
    · cases hg : (GeneratorProvider.get p name).1 <;>
        simp [hg, h, bumpCall, setValue, setInstance]

theorem pres_useInst (inst : Inst) (note b name : Obj) (w : World) (s : InjState) :
    Pres s (useInst inst note b name w s).2 :=
  Pres.same (useInst_closed ..) (useInst_order ..)

theorem mkLazy_closed (env : Env) (payload : Obj) (s : InjState) :
    (mkLazy env payload s).2.closed = s.closed := by
  unfold mkLazy
  repeat' split
  all_goals simp

theorem mkLazy_order (env : Env) (payload : Obj) (s : InjState) :
    (mkLazy env payload s).2.get_order = s.get_order := by
  unfold mkLazy
  repeat' split
  all_goals simp

theorem pres_mkLazy (env : Env) (payload : Obj) (s : InjState) :
    Pres s (mkLazy env payload s).2 :=
  Pres.same (mkLazy_closed ..) (mkLazy_order ..)

theorem pres_of_eq {α : Type} {s : InjState} {r : Except JErr α × InjState}
    {e : Except JErr α} {s' : InjState} (h : Pres s r.2) (heq : r = (e, s')) : Pres s s' := by
  have : r.2 = s' := by rw [heq]
  exact this ▸ h

theorem nodup_append_single {l : List Obj} {b : Obj} (h : l.Nodup) (hb : ¬ b ∈ l) :
    (l ++ [b]).Nodup := by
  simp [List.nodup_append, h, hb]

/-- Every interpreter operation preserves the `closed` flag, only extends
`get_order` at its end, and preserves its freedom from duplicates. -/
theorem presAll : ∀ n : Nat,
    (∀ env w note s, Pres s (get n env w note s).2) ∧
    (∀ env w note s, Pres s (getResolve n env w note s).2) ∧
    (∀ env w p note s, Pres s (handleProv n env w p note s).2) ∧
    (∀ env w p note basenote name s,
      Pres s (handleProvCore n env w p note basenote name s).2) ∧
    (∀ env w fid note basenote name s, Pres s (useFn n env w fid note basenote name s).2) ∧
    (∀ env w pos kws flag s, Pres s (prepareNotes n env w pos kws flag s).2) ∧
    (∀ env w pos s, Pres s (processPos n env w pos s).2) ∧
    (∀ env w kws flag acc s, Pres s (processKws n env w kws flag acc s).2) ∧
    (∀ env w F flag s, Pres s (prepareCallable n env w F flag s).2) ∧
    (∀ env w wid ra rk s, Pres s (callWrapper n env w wid ra rk s).2) ∧
    (∀ env w payload s, Pres s (runEager n env w payload s).2) ∧
    (∀ env w g s, Pres s (initGenerator n env w g s).2) := by
  intro n
  induction n with
  | zero =>
    refine ⟨?_, ?_, ?_, ?_, ?_, ?_, ?_, ?_, ?_, ?_, ?_, ?_⟩
    · intro env w note s; exact Pres.refl
    · intro env w note s; exact Pres.refl
    · intro env w p note s; exact Pres.refl
    · intro env w p note basenote name s; exact Pres.refl
    · intro env w fid note basenote name s; exact Pres.refl
    · intro env w pos kws flag s; exact Pres.refl
    · intro env w pos s
      cases pos <;> exact Pres.refl
    · intro env w kws flag acc s
      cases kws <;> exact Pres.refl
    · intro env w F flag s; exact Pres.refl
    · intro env w wid ra rk s; exact Pres.refl
    · intro env w payload s; exact Pres.refl
    · intro env w g s; exact Pres.refl
  | succ n ih =>
    obtain ⟨ihget, ihres, ihhp, ihcore, ihufn, ihpn, ihpp, ihpk, ihpc, ihcw, ihre, ihig⟩ := ih
    have hres : ∀ env w note s, Pres s (getResolve (n+1) env w note s).2 := by
      intro env w note s
      simp only [getResolve]
      repeat' split
      all_goals first
        | exact Pres.refl
        | exact ihhp _ _ _ _ _
    have hget : ∀ env w note s, Pres s (get (n+1) env w note s).2 := by
      intro env w note s
      simp only [get]
      split
      · exact Pres.refl
      · split
        · split
          · exact (pres_bumpStats _ _).trans (pres_mkLazy _ _ _)
          · split
            · exact (pres_bumpStats _ _).trans (ihre _ _ _ _)
            · exact (pres_bumpStats _ _).trans (ihres _ _ _ _)
        all_goals exact (pres_bumpStats _ _).trans (ihres _ _ _ _)
    have hhp : ∀ env w p note s, Pres s (handleProv (n+1) env w p note s).2 := by
      intro env w p note s
      simp only [handleProv]
      split
      · exact Pres.refl
      · split
        · rename_i heq
          exact pres_of_eq (ihcore _ _ _ _ _ _ _) heq
        · rename_i v s₁ heq
          have h := pres_of_eq (ihcore _ _ _ _ _ _ _) heq
          split
          · exact h
          · rename_i hmem
            refine h.trans ⟨rfl, ⟨[_], rfl⟩, fun hnd => nodup_append_single hnd hmem⟩
    have hcore : ∀ env w p note basenote name s,
        Pres s (handleProvCore (n+1) env w p note basenote name s).2 := by
      intro env w p note basenote name s
      simp only [handleProvCore]
      split
      · exact pres_useInst _ _ _ _ _ _
      · split
        · -- provider class
          split
          · split
            · rename_i heq
              exact pres_of_eq (ihpn _ _ _ _ _ _) heq
            · rename_i args kwargs s₁ heq
              have h := pres_of_eq (ihpn _ _ _ _ _ _) heq
              exact h.trans ((pres_setInstance _ _ _).trans (pres_useInst _ _ _ _ _ _))
          · exact (pres_setInstance _ _ _).trans (pres_useInst _ _ _ _ _ _)
        · -- generator function
          split
          · rename_i heq
            exact pres_of_eq (ihig _ _ _ _) heq
          · rename_i gp value s₁ heq
            have h := pres_of_eq (ihig _ _ _ _) heq
            have hstep : Pres s₁
                (bumpCall basenote (setValue basenote value
                  (setInstance basenote (.genProvider gp) s₁))) :=
              (pres_setInstance _ _ _).trans
                ((pres_setValue _ _ _).trans (pres_bumpCall _ _))
            split
            · exact h.trans hstep
            · exact h.trans (hstep.trans (pres_useInst _ _ _ _ _ _))
        · exact ihufn _ _ _ _ _ _ _
    have hufn : ∀ env w fid note basenote name s,
        Pres s (useFn (n+1) env w fid note basenote name s).2 := by
      intro env w fid note basenote name s
      simp only [useFn]
      split
      · -- annotated: ephemeral wrapper then callWrapper
        have hmid : Pres s { s with wrappers := s.wrappers ++
            [⟨env.fns fid, [], [], Option.none⟩] } := Pres.same rfl rfl
        have hw : Pres s (bumpCall basenote { s with wrappers := s.wrappers ++
            [⟨env.fns fid, [], [], Option.none⟩] }) :=
          hmid.trans (pres_bumpCall _ _)
        split
        · rename_i v s₂ heq
          have h := pres_of_eq (ihcw _ _ _ _ _ _) heq
          split
          · exact (hw.trans h).trans (pres_setValue _ _ _)
          · exact hw.trans h
        · rename_i e s₂ heq
          exact hw.trans (pres_of_eq (ihcw _ _ _ _ _ _) heq)
      · split
        · split
          · exact (pres_bumpCall _ _).trans (pres_setValue _ _ _)
          · exact pres_bumpCall _ _
        · exact pres_bumpCall _ _
    have hpn : ∀ env w pos kws flag s, Pres s (prepareNotes (n+1) env w pos kws flag s).2 := by
      intro env w pos kws flag s
      simp only [prepareNotes]
      split
      · rename_i heq
        exact pres_of_eq (ihpp _ _ _ _) heq
      · rename_i args s₁ heq
        have h := pres_of_eq (ihpp _ _ _ _) heq
        split
        · rename_i heq2
          exact h.trans (pres_of_eq (ihpk _ _ _ _ _ _) heq2)
        · rename_i kwargs s₂ heq2
          exact h.trans (pres_of_eq (ihpk _ _ _ _ _ _) heq2)
    have hpp : ∀ env w pos s, Pres s (processPos (n+1) env w pos s).2 := by
      intro env w pos s
      cases pos with
      | nil => exact Pres.refl
      | cons note rest =>
        simp only [processPos]
        split
        · rename_i heq
          exact pres_of_eq (ihget _ _ _ _) heq
        · rename_i v s₁ heq
          have h := pres_of_eq (ihget _ _ _ _) heq
          split
          · rename_i heq2
            exact h.trans (pres_of_eq (ihpp _ _ _ _) heq2)
          · rename_i vs s₂ heq2
            exact h.trans (pres_of_eq (ihpp _ _ _ _) heq2)
    have hpk : ∀ env w kws flag acc s, Pres s (processKws (n+1) env w kws flag acc s).2 := by
      intro env w kws flag acc s
      cases kws with
      | nil => exact Pres.refl
      | cons hd rest =>
        obtain ⟨a, note⟩ := hd
        simp only [processKws]
        split
        · -- maybe payload
          split
          · rename_i v s₁ heq
            exact (pres_of_eq (ihget _ _ _ _) heq).trans (ihpk _ _ _ _ _ _)
          · rename_i e s₁ heq
            have h := pres_of_eq (ihget _ _ _ _) heq
            split
            · exact h.trans (ihpk _ _ _ _ _ _)
            · exact h
        · split
          · -- partial flag
            split
            · rename_i v s₁ heq
              exact (pres_of_eq (ihget _ _ _ _) heq).trans (ihpk _ _ _ _ _ _)
            · rename_i e s₁ heq
              have h := pres_of_eq (ihget _ _ _ _) heq
              split
              · exact h.trans (ihpk _ _ _ _ _ _)
              · exact h
          · split
            · rename_i v s₁ heq
              exact (pres_of_eq (ihget _ _ _ _) heq).trans (ihpk _ _ _ _ _ _)
            · rename_i e s₁ heq
              exact pres_of_eq (ihget _ _ _ _) heq
    have hpc : ∀ env w F flag s, Pres s (prepareCallable (n+1) env w F flag s).2 := by
      intro env w F flag s
      simp only [prepareCallable]
      split
      · exact Pres.refl
      · exact ihpn _ _ _ _ _ _
    have hcw : ∀ env w wid ra rk s, Pres s (callWrapper (n+1) env w wid ra rk s).2 := by
      intro env w wid ra rk s
      simp only [callWrapper]
      split
      · exact Pres.refl
      · split
        · exact Pres.refl
        · split
          · rename_i heq
            exact pres_of_eq (ihpc _ _ _ _ _) heq
          · rename_i ja jk s₁ heq
            have h := pres_of_eq (ihpc _ _ _ _ _) heq
            exact h.trans (Pres.same rfl rfl)
    have hre : ∀ env w payload s, Pres s (runEager (n+1) env w payload s).2 := by
      intro env w payload s
      simp only [runEager]
      split
      · exact Pres.refl
      · split
        · rename_i heq
          exact pres_of_eq (ihpc _ _ _ _ _) heq
        · rename_i args kwargs s₁ heq
          exact pres_of_eq (ihpc _ _ _ _ _) heq
    have hig : ∀ env w g s, Pres s (initGenerator (n+1) env w g s).2 := by
      intro env w g s
      simp only [initGenerator]
      split
      · split
        · rename_i heq
          exact pres_of_eq (ihpn _ _ _ _ _ _) heq
        · rename_i args kwargs s₁ heq
          have h := pres_of_eq (ihpn _ _ _ _ _ _) heq
          split
          · exact h
          · exact h
      · split
        · exact Pres.refl
        · exact Pres.refl
    exact ⟨hget, hres, hhp, hcore, hufn, hpn, hpp, hpk, hpc, hcw, hre, hig⟩

/-- The `closed` flag never changes across `Injector.get`, `get_order` is
only extended, and a duplicate-free `get_order` stays duplicate-free. -/
theorem pres_get (n : Nat) (env : Env) (w : World) (note : Obj) (s : InjState) :
    Pres s (get n env w note s).2 :=
  (presAll n).1 env w note s

theorem useInst_ok_values {inst : Inst} {note b : Obj} {w : World} {s : InjState}
    {v : Obj} {s' : InjState} (h : useInst inst note b Obj.none w s = (.ok v, s')) :
    alook s'.values b = some v := by
  unfold useInst at h
  cases inst with
  | providerObj g c =>
    cases hg : g Obj.none w <;> simp [hg] at h
    obtain ⟨h1, h2⟩ := h
    subst h1
    subst h2
    simp [setValue, alook_aput_self]
  | genProvider p =>
    cases hg : (GeneratorProvider.get p Obj.none).1 <;> simp [hg] at h
    obtain ⟨h1, h2⟩ := h
    subst h1
    subst h2
    simp [setValue, alook_aput_self]

theorem useFn_ok_values {n : Nat} {env : Env} {w : World} {fid : Nat} {note b : Obj}
    {s : InjState} {v : Obj} {s' : InjState}
    (h : useFn n env w fid note b Obj.none s = (.ok v, s')) :
    alook s'.values b = some v := by
  cases n with
  | zero => simp [useFn] at h
  | succ m =>
    simp only [useFn] at h
    split at h
    · split at h
      · rename_i v₂ s₂ heq
        simp at h
        obtain ⟨h1, h2⟩ := h
        subst h1
        subst h2
        simp [setValue, alook_aput_self]
      · simp at h
    · split at h
      · rename_i v₂ heq
        simp at h
        obtain ⟨h1, h2⟩ := h
        subst h1
        subst h2
        simp [setValue, alook_aput_self]
      · simp at h

theorem handleProvCore_ok_values {n : Nat} {env : Env} {w : World} {p : PDescr}
    {note b : Obj} {s : InjState} {v : Obj} {s' : InjState}
    (h : handleProvCore n env w p note b Obj.none s = (.ok v, s')) :
    alook s'.values b = some v := by
  cases n with
  | zero => simp [handleProvCore] at h
  | succ m =>
    simp only [handleProvCore] at h
    split at h
    · exact useInst_ok_values h
    · split at h
      · split at h
        · split at h
          · simp at h
          · exact useInst_ok_values h
        · exact useInst_ok_values h
      · split at h
        · simp at h
        · rename_i gp value s₁ heq
          simp at h
          obtain ⟨h1, h2⟩ := h
          subst h1
          subst h2
          simp [bumpCall, setValue, alook_aput_self]
      · exact useFn_ok_values h

theorem handleProv_ok_values {n : Nat} {env : Env} {w : World} {p : PDescr}
    {note b : Obj} {s : InjState} {v : Obj} {s' : InjState}
    (h : handleProv n env w p note s = (.ok v, s'))
    (hparse : parse_note note = .ok (b, Obj.none)) :
    alook s'.values b = some v := by
  cases n with
  | zero => simp [handleProv] at h
  | succ m =>
    simp only [handleProv, hparse] at h
    split at h
    · simp at h
    · rename_i v₁ s₁ heq
      split at h
      · simp at h
        obtain ⟨h1, h2⟩ := h
        subst h1
        subst h2
        exact handleProvCore_ok_values heq
      · simp at h
        obtain ⟨h1, h2⟩ := h
        subst h1
        subst h2
        simpa using handleProvCore_ok_values heq

theorem getResolve_ok_values {n : Nat} {env : Env} {w : World} {note b : Obj}
    {s : InjState} {v : Obj} {s' : InjState}
    (h : getResolve n env w note s = (.ok v, s'))
    (hparse : parse_note note = .ok (b, Obj.none)) :
    alook s'.values b = some v := by
  cases n with
  | zero => simp [getResolve] at h
  | succ m =>
    simp only [getResolve, hparse] at h
    simp at h
    split at h
    · rename_i v₁ hv
      simp at h
      obtain ⟨h1, h2⟩ := h
      subst h1
      subst h2
      exact hv
    · rename_i hv
      split at h
      · simp at h
      · exact handleProv_ok_values h hparse

theorem get_ok_closed {f : Nat} {env : Env} {w : World} {note : Obj} {s : InjState}
    {v : Obj} {s₁ : InjState} (h : get f env w note s = (.ok v, s₁)) : s.closed = false := by
  cases f with
  | zero => simp [get] at h
  | succ m =>
    simp only [get] at h
    split at h
    · simp at h
    · rename_i hc
      simpa using hc

theorem get_partial_none_ne {f : Nat} {env : Env} {w : World} {s : InjState}
    {v : Obj} {s' : InjState} :
    get f env w (Obj.tcons (.str "partial") (.tcons .none .tnil)) s ≠ (.ok v, s') := by
  intro h
  cases f with
  | zero => simp [get] at h
  | succ m =>
    simp only [get] at h
    split at h
    · simp at h
    · simp [mkLazy, decodeDirPayload, Obj.asTuple] at h

theorem get_eager_none_ne {f : Nat} {env : Env} {w : World} {s : InjState}
    {v : Obj} {s' : InjState} :
    get f env w (Obj.tcons (.str "eager_partial") (.tcons .none .tnil)) s ≠ (.ok v, s') := by
  intro h
  cases f with
  | zero => simp [get] at h
  | succ m =>
    simp only [get] at h
    split at h
    · simp at h
    · cases m with
      | zero => simp [runEager] at h
      | succ m2 => simp [runEager, decodeDirPayload, Obj.asTuple] at h

theorem getResolve_cached {f : Nat} {env : Env} {w : World} {note b v : Obj} {s : InjState}
    (hparse : parse_note note = .ok (b, Obj.none)) (hval : alook s.values b = some v) :
    getResolve (f+1) env w note s = (.ok v, s) := by
  simp only [getResolve, hparse]
  simp [hval]

/-- A second unqualified request for a cached base note is answered from
the `values` cache: only the request statistics change, and in particular
no provider or factory is invoked. -/
theorem get_cached_hit {f : Nat} {env : Env} {w : World} {note b v : Obj} {s : InjState}
    (hclosed : s.closed = false)
    (hparse : parse_note note = .ok (b, Obj.none))
    (hval : alook s.values b = some v)
    (hnp : note ≠ .tcons (.str "partial") (.tcons .none .tnil))
    (hne : note ≠ .tcons (.str "eager_partial") (.tcons .none .tnil)) :
    get (f+2) env w note s = (.ok v, bumpStats note s) := by
  have hval1 : alook (bumpStats note s).values b = some v := by
    simpa [bumpStats] using hval
  simp only [get, hclosed]
  simp only [Bool.false_eq_true, if_false]
  split
  · rename_i d payload
    have hpp : parse_note (Obj.tcons d (Obj.tcons payload Obj.tnil)) = .ok (d, payload) := by
      simp [parse_note, Obj.asTuple]
    rw [hpp] at hparse
    have hd : d = b := by
      have := hparse
      simp at this
      exact this.1
    have hpay : payload = Obj.none := by
      have := hparse
      simp at this
      exact this.2
    subst hpay
    split
    · rename_i hdp
      rw [hdp] at hnp
      exact absurd rfl hnp
    · split
      · rename_i hde
        rw [hde] at hne
        exact absurd rfl hne
      · exact getResolve_cached hparse hval1
  · exact getResolve_cached hparse hval1

theorem useInst_qual_values {inst : Inst} {note b q : Obj} {w : World} {s : InjState}
    (hq : q ≠ Obj.none) : (useInst inst note b q w s).2.values = s.values := by
  unfold useInst
  cases inst with
  | providerObj g c =>
    cases hg : g q w <;> simp [hg, hq, bumpCall]
  | genProvider p =>
    cases hg : (GeneratorProvider.get p q).1 <;> simp [hg, hq, bumpCall, setInstance]

theorem useInst_qual_ok {gf : Obj → World → Except JErr Obj} {cf : Except JErr Unit}
    {note b q : Obj} {w : World} {s : InjState} {u : Obj}
    (hq : q ≠ Obj.none) (hg : gf q w = .ok u) :
    (useInst (.providerObj gf cf) note b q w s).1 = .ok u := by
  unfold useInst
  simp [hg, hq]

/-- Successful unqualified resolution leaves the resolved value in the
`values` cache under the base note. -/
theorem get_ok_values {n : Nat} {env : Env} {w : World} {note b : Obj}
    {s : InjState} {v : Obj} {s' : InjState}
    (h : get n env w note s = (.ok v, s'))
    (hparse : parse_note note = .ok (b, Obj.none)) :
    alook s'.values b = some v := by
  cases n with
  | zero => simp [get] at h
  | succ m =>
    simp only [get] at h
    split at h
    · simp at h
    · split at h
      · rename_i d payload
        split at h
        · -- partial directive: parse says payload = Obj.none, unpack fails
          rename_i hd
          have hpay : payload = Obj.none := by
            simp [parse_note, Obj.asTuple] at hparse
            exact hparse.2
          subst hpay
          simp [mkLazy, decodeDirPayload, Obj.asTuple] at h
        · split at h
          · rename_i hd
            have hpay : payload = Obj.none := by
              simp [parse_note, Obj.asTuple] at hparse
              exact hparse.2
            subst hpay
            cases m with
            | zero => simp [runEager] at h
            | succ m2 => simp [runEager, decodeDirPayload, Obj.asTuple] at h
          · exact getResolve_ok_values h hparse
      · exact getResolve_ok_values h hparse

theorem handleProv_of_core_err {n : Nat} {env : Env} {w : World} {p : PDescr}
    {note b q : Obj} {s : InjState} {e : JErr} {s2 : InjState}
    (hparse : parse_note note = .ok (b, q))
    (hcore : handleProvCore n env w p note b q s = (.error e, s2)) :
    handleProv (n+1) env w p note s = (.error e, s2) := by
  simp only [handleProv, hparse, hcore]

theorem handleProv_of_core_ok {n : Nat} {env : Env} {w : World} {p : PDescr}
    {note b q : Obj} {s : InjState} {v : Obj} {s2 : InjState}
    (hparse : parse_note note = .ok (b, q))
    (hcore : handleProvCore n env w p note b q s = (.ok v, s2)) :
    handleProv (n+1) env w p note s =
      if b ∈ s2.get_order then (.ok v, s2)
      else (.ok v, { s2 with get_order := s2.get_order ++ [b] }) := by
  simp only [handleProv, hparse, hcore]

/-- C1: memoization is per unqualified base note only. First conjunct: if
an unqualified note resolved successfully, a second `get` of the same note
on the same open injector returns the identical cached value, mutating
only the request statistics — in particular the ghost invocation counter
is unchanged, so the underlying provider/factory is not invoked again.
Second conjunct: a qualified request (non-null qualifier) is never served
from the `values` cache and never stores its result there: with a live
provider instance for the base note, the result is whatever
`instance.get(qualifier)` produces, and the `values` cache is left
exactly as it was. -/
theorem get_memoization_per_unqualified_base
    (f f₂ : Nat) (env : Env) (w : World) (note b q v : Obj) (s s₁ : InjState)
    (gf : Obj → World → Except JErr Obj) (cf : Except JErr Unit) (p : PDescr) :
    (parse_note note = .ok (b, Obj.none) →
      get f env w note s = (.ok v, s₁) →
      get (f₂+2) env w note s₁ = (.ok v, bumpStats note s₁) ∧
      (get (f₂+2) env w note s₁).2.callCount = s₁.callCount ∧
      (get (f₂+2) env w note s₁).2.values = s₁.values) ∧
    (parse_note note = .ok (b, q) → q ≠ Obj.none → isDirective note = false →
      s.closed = false → alook s.instances b = some (.providerObj gf cf) →
      lookupNS env.reg env.mro b = some p →
      (get (f₂+4) env w note s).2.values = s.values ∧
      ∀ u, gf q w = .ok u → (get (f₂+4) env w note s).1 = .ok u) := by
  constructor
  · intro hparse h1
    have hc : s.closed = false := get_ok_closed h1
    have hc1 : s₁.closed = false := by
      have hp := pres_get f env w note s
      rw [h1] at hp
      have hce := hp.closed_eq
      rw [hc] at hce
      exact hce
    have hval : alook s₁.values b = some v := get_ok_values h1 hparse
    have hnp : note ≠ .tcons (.str "partial") (.tcons .none .tnil) := by
      intro hn
      rw [hn] at h1
      exact get_partial_none_ne h1
    have hne : note ≠ .tcons (.str "eager_partial") (.tcons .none .tnil) := by
      intro hn
      rw [hn] at h1
      exact get_eager_none_ne h1
    have hhit := @get_cached_hit f₂ env w note b v s₁ hc1 hparse hval hnp hne
    refine ⟨hhit, ?_, ?_⟩
    · rw [hhit]
      simp [bumpStats]
    · rw [hhit]
      simp [bumpStats]
  · intro hparse hq hdir hclosed hinst hlook
    have h1 : get (f₂+4) env w note s = getResolve (f₂+3) env w note (bumpStats note s) := by
      simp only [get, hclosed]
      simp only [Bool.false_eq_true, if_false]
      split
      · rename_i d payload
        simp [isDirective] at hdir
        simp [hdir.1, hdir.2]
      · rfl
    have h2 : getResolve (f₂+3) env w note (bumpStats note s)
        = handleProv (f₂+2) env w p note (bumpStats note s) := by
      simp only [getResolve, hparse]
      have hmemo : (if q = Obj.none then alook (bumpStats note s).values b else Option.none)
          = Option.none := by simp [hq]
      rw [hmemo]
      simp [hlook]
    have hinst1 : alook (bumpStats note s).instances b = some (.providerObj gf cf) := by
      simpa [bumpStats] using hinst
    have h3 : handleProvCore (f₂+1) env w p note b q (bumpStats note s)
        = useInst (.providerObj gf cf) note b q w (bumpStats note s) := by
      simp only [handleProvCore, hinst1]
    cases hres : useInst (.providerObj gf cf) note b q w (bumpStats note s) with
    | mk r s2 =>
    have hv := @useInst_qual_values (.providerObj gf cf) note b q w (bumpStats note s) hq
    rw [hres] at hv
    constructor
    · cases r with
      | error e =>
        have hp := handleProv_of_core_err hparse (h3.trans hres)
        rw [h1, h2, hp]
        simpa [bumpStats] using hv
      | ok u2 =>
        have hp := handleProv_of_core_ok hparse (h3.trans hres)
        rw [h1, h2, hp]
        split
        · simpa [bumpStats] using hv
        · simpa [bumpStats] using hv
    · intro u hgu
      have ho := @useInst_qual_ok gf cf note b q w (bumpStats note s) u hq hgu
      rw [hres] at ho
      simp at ho
      subst ho
      have hp := handleProv_of_core_ok hparse (h3.trans hres)
      rw [h1, h2, hp]
      split
      · rfl
      · rfl

/-- Witness for the memoization theorem at concrete inputs: `x` resolved
twice returns the cached 6 with only a stats change, and a qualified
request on a live instance ignores and preserves the decoy cache. -/
theorem get_memoization_witness :
    (get 2 envXY [] (.str "x") (get 10 envXY [] (.str "x") InjState.init).2
        = (.ok (.int 6), bumpStats (.str "x") (get 10 envXY [] (.str "x") InjState.init).2)) ∧
    (get 4 envH [] (.str "h:k") sH).2.values = sH.values ∧
    (get 4 envH [] (.str "h:k") sH).1 = .ok (.tcons (.str "k") .tnil) := by
  refine ⟨?_, ?_, ?_⟩
  · exact ((get_memoization_per_unqualified_base 10 0 envXY [] (.str "x") (.str "x")
      Obj.none (.int 6) InjState.init ((get 10 envXY [] (.str "x") InjState.init).2)
      (fun _ _ => .ok Obj.none) (.ok ()) (.func 1)).1 (by decide) rfl).1
  · exact ((get_memoization_per_unqualified_base 0 0 envH [] (.str "h:k") (.str "h")
      (.str "k") Obj.none sH InjState.init provH (.ok ()) (.func 1)).2
      (by decide) (by decide) (by decide) rfl rfl rfl).1
  · exact ((get_memoization_per_unqualified_base 0 0 envH [] (.str "h:k") (.str "h")
      (.str "k") Obj.none sH InjState.init provH (.ok ()) (.func 1)).2
      (by decide) (by decide) (by decide) rfl rfl rfl).2 (.tcons (.str "k") .tnil) rfl

theorem lookupNS_congr {reg reg' : RegState} {mro : List Nat}
    (h : ∀ c ∈ mro, alook reg' c = alook reg c) (b : Obj) :
    lookupNS reg' mro b = lookupNS reg mro b := by
  induction mro with
  | nil => rfl
  | cons c rest ih =>
    have hrest : ∀ c' ∈ rest, alook reg' c' = alook reg c' :=
      fun c' hc' => h c' (List.mem_cons_of_mem c hc')
    simp only [lookupNS, h c (List.mem_cons_self c rest)]
    cases hcc : alook reg c with
    | none => exact ih hrest
    | some tbl =>
      show (match alook tbl b with
        | some p => some p
        | Option.none => lookupNS reg' rest b) =
        (match alook tbl b with
        | some p => some p
        | Option.none => lookupNS reg rest b)
      cases alook tbl b with
      | some d => rfl
      | none => exact ih hrest

theorem lookupNS_none_iff {reg : RegState} {mro : List Nat} {b : Obj} :
    lookupNS reg mro b = Option.none ↔
      ∀ c ∈ mro, ∀ tbl, alook reg c = some tbl → alook tbl b = Option.none := by
  induction mro with
  | nil => simp [lookupNS]
  | cons c rest ih =>
    simp only [lookupNS]
    cases hcc : alook reg c with
    | none =>
      show lookupNS reg rest b = Option.none ↔ _
      constructor
      · intro h c' hc' tbl htbl
        rcases List.mem_cons.mp hc' with h1 | h1
        · subst h1
          rw [hcc] at htbl
          cases htbl
        · exact ih.mp h c' h1 tbl htbl
      · intro h
        exact ih.mpr fun c' hc' tbl htbl => h c' (List.mem_cons_of_mem c hc') tbl htbl
    | some tbl =>
      show (match alook tbl b with
        | some p => some p
        | Option.none => lookupNS reg rest b) = Option.none ↔ _
      cases htb : alook tbl b with
      | some d =>
        constructor
        · intro h
          cases h
        · intro h
          have hx := h c (List.mem_cons_self c rest) tbl hcc
          rw [htb] at hx
          cases hx
      | none =>
        constructor
        · intro h c' hc' tbl' htbl'
          rcases List.mem_cons.mp hc' with h1 | h1
          · subst h1
            rw [hcc] at htbl'
            cases htbl'
            exact htb
          · exact ih.mp h c' h1 tbl' htbl'
        · intro h
          exact ih.mpr fun c' hc' tbl' htbl' => h c' (List.mem_cons_of_mem c hc') tbl' htbl'

/-- C3: registry shadowing. If registering a note in class `ns` succeeds,
then (i) every other class's own table is untouched, (ii) lookup from any
chain headed by `ns` now returns the new descriptor, and (iii) lookup
along any chain that does not contain `ns` — a sibling of `ns` — is
completely unchanged. Finally, lookup returns nothing (the `NoProvider`
failure, raised as `LookupError`) exactly when no class table in the whole
chain contains the base note. -/
theorem register_shadows_locally (reg reg' : RegState) (ns : Nat) (mro' : List Nat)
    (note b q : Obj) (p : PDescr) :
    (parse_note note = .ok (b, q) → register reg ns note p = .ok reg' →
      (∀ c, c ≠ ns → alook reg' c = alook reg c) ∧
      (∀ rest, lookupNS reg' (ns :: rest) b = some p) ∧
      (ns ∉ mro' → ∀ b', lookupNS reg' mro' b' = lookupNS reg mro' b')) ∧
    ((lookupNS reg mro' b = Option.none) ↔
      ∀ c ∈ mro', ∀ tbl, alook reg c = some tbl → alook tbl b = Option.none) := by
  constructor
  · intro hparse hreg
    have hreg' : reg' = aput reg ns (aput ((alook reg ns).getD []) b p) := by
      simp only [register, hparse] at hreg
      simpa using hreg.symm
    subst hreg'
    have htab : ∀ c, c ≠ ns →
        alook (aput reg ns (aput ((alook reg ns).getD []) b p)) c = alook reg c := by
      intro c hc
      rw [alook_aput, if_neg (fun h => hc h.symm)]
    refine ⟨htab, ?_, ?_⟩
    · intro rest
      simp [lookupNS, alook_aput_self]
    · intro hns b'
      exact lookupNS_congr (fun c hc => htab c (fun h => hns (h ▸ hc))) b'
  · exact lookupNS_none_iff

/-- Witness for the shadowing theorem: after the child class 1
re-registers `x`, lookup from the child chain `[1, 0]` returns the child's
descriptor, lookup from the sibling chain `[2, 0]` still returns the
ancestor's, and the ancestor's own table is untouched. -/
theorem register_shadows_locally_witness :
    lookupNS regAC [1, 0] (.str "x") = some (.func 11) ∧
    lookupNS regAC [2, 0] (.str "x") = some (.func 10) ∧
    alook regAC 0 = alook regA 0 := by
  have h := (register_shadows_locally regA regAC 1 [2, 0] (.str "x") (.str "x") Obj.none
    (.func 11)).1 (by decide) rfl
  refine ⟨h.2.1 [0], ?_, h.1 0 (by decide)⟩
  rw [h.2.2 (by decide) (.str "x")]
  rfl

theorem closeLoop_closed (l : List Obj) (s : InjState) :
    (closeLoop l s).2.closed = s.closed := by
  induction l generalizing s with
  | nil => rfl
  | cons b rest ih =>
    simp only [closeLoop]
    cases hbi : alook s.instances b with
    | none => exact ih s
    | some inst =>
      cases hr : (closeInst inst).1 with
      | error e => simp [hr, setInstance]
      | ok u => simp only [hr]; rw [ih]; simp [setInstance]

theorem closeLoop_order (l : List Obj) (s : InjState) :
    (closeLoop l s).2.get_order = s.get_order := by
  induction l generalizing s with
  | nil => rfl
  | cons b rest ih =>
    simp only [closeLoop]
    cases hbi : alook s.instances b with
    | none => exact ih s
    | some inst =>
      cases hr : (closeInst inst).1 with
      | error e => simp [hr, setInstance]
      | ok u => simp only [hr]; rw [ih]; simp [setInstance]

theorem closeLoop_instKeys (l : List Obj) (s : InjState) (b' : Obj) :
    (alook (closeLoop l s).2.instances b').isSome = (alook s.instances b').isSome := by
  induction l generalizing s with
  | nil => rfl
  | cons b rest ih =>
    simp only [closeLoop]
    cases hbi : alook s.instances b with
    | none => exact ih s
    | some inst =>
      cases hr : (closeInst inst).1 with
      | error e =>
        simp only [hr]
        by_cases hb : b = b'
        · subst hb
          simp [setInstance, alook_aput_self, hbi]
        · simp [setInstance, alook_aput, hb]
      | ok u =>
        simp only [hr]
        rw [ih]
        by_cases hb : b = b'
        · subst hb
          simp [setInstance, alook_aput_self, hbi]
        · simp [setInstance, alook_aput, hb]

theorem closeLoop_log_ext (l : List Obj) (s : InjState) :
    ∃ t, (closeLoop l s).2.closedLog = s.closedLog ++ t := by
  induction l generalizing s with
  | nil => exact ⟨[], by simp [closeLoop]⟩
  | cons b rest ih =>
    simp only [closeLoop]
    cases hbi : alook s.instances b with
    | none => exact ih s
    | some inst =>
      cases hr : (closeInst inst).1 with
      | error e => exact ⟨[b], by simp [hr, setInstance]⟩
      | ok u =>
        simp only [hr]
        obtain ⟨t, ht⟩ := ih (setInstance b (closeInst inst).2
          { s with closedLog := s.closedLog ++ [b] })
        refine ⟨b :: t, ?_⟩
        rw [ht]
        simp [setInstance]

theorem closeLoop_err_logged (l : List Obj) (s : InjState) (e : JErr)
    (h : (closeLoop l s).1 = .error e) :
    (closeLoop l s).2.closedLog ≠ s.closedLog := by
  induction l generalizing s with
  | nil => simp [closeLoop] at h
  | cons b rest ih =>
    cases hbi : alook s.instances b with
    | none =>
      simp only [closeLoop, hbi] at h ⊢
      exact ih s h
    | some inst =>
      cases hr : (closeInst inst).1 with
      | error e2 =>
        simp only [closeLoop, hbi, hr] at h ⊢
        intro hlog
        simp [setInstance] at hlog
      | ok u =>
        simp only [closeLoop, hbi, hr] at h ⊢
        intro hlog
        obtain ⟨t, ht⟩ := closeLoop_log_ext rest
          (setInstance b (closeInst inst).2 { s with closedLog := s.closedLog ++ [b] })
        rw [ht] at hlog
        simp [setInstance] at hlog

theorem closeLoop_attempts (l : List Obj) (s : InjState)
    (hne : l.filter (fun b => (alook s.instances b).isSome) ≠ []) :
    (closeLoop l s).2.closedLog ≠ s.closedLog := by
  induction l generalizing s with
  | nil => simp at hne
  | cons b rest ih =>
    cases hbi : alook s.instances b with
    | none =>
      rw [List.filter_cons] at hne
      simp only [hbi, Option.isSome_none] at hne
      simp only [closeLoop, hbi]
      exact ih s (by simpa using hne)
    | some inst =>
      cases hr : (closeInst inst).1 with
      | error e =>
        simp only [closeLoop, hbi, hr]
        intro hlog
        simp [setInstance] at hlog
      | ok u =>
        simp only [closeLoop, hbi, hr]
        intro hlog
        obtain ⟨t, ht⟩ := closeLoop_log_ext rest
          (setInstance b (closeInst inst).2 { s with closedLog := s.closedLog ++ [b] })
        rw [ht] at hlog
        simp [setInstance] at hlog

theorem alook_mem {κ α : Type} [DecidableEq κ] {l : List (κ × α)} {k : κ} {v : α}
    (h : alook l k = some v) : (k, v) ∈ l := by
  induction l with
  | nil => simp [alook] at h
  | cons hd tl ih =>
    obtain ⟨k', v'⟩ := hd
    by_cases hk : k' = k
    · subst hk
      simp [alook] at h
      simp [h]
    · simp only [alook, if_neg hk] at h
      exact List.mem_cons_of_mem _ (ih h)

theorem closeLoop_all_ok (l : List Obj) (s : InjState)
    (hnd : l.Nodup)
    (hok : ∀ b inst, b ∈ l → alook s.instances b = some inst → (closeInst inst).1 = .ok ()) :
    (closeLoop l s).1 = .ok () ∧
    (closeLoop l s).2.closedLog
      = s.closedLog ++ l.filter (fun b => (alook s.instances b).isSome) := by
  induction l generalizing s with
  | nil => simp [closeLoop]
  | cons b rest ih =>
    have hnd' : rest.Nodup := (List.nodup_cons.mp hnd).2
    have hbmem : b ∉ rest := (List.nodup_cons.mp hnd).1
    cases hbi : alook s.instances b with
    | none =>
      simp only [closeLoop, hbi]
      have hres := ih s hnd' (fun b' i hb' hai => hok b' i (List.mem_cons_of_mem b hb') hai)
      rw [List.filter_cons]
      simp only [hbi, Option.isSome_none, Bool.false_eq_true, if_false]
      exact hres
    | some inst =>
      have hco := hok b inst (List.mem_cons_self b rest) hbi
      simp only [closeLoop, hbi, hco]
      have hkeys : ∀ b' ∈ rest,
          alook (setInstance b (closeInst inst).2
            { s with closedLog := s.closedLog ++ [b] }).instances b'
          = alook s.instances b' := by
        intro b' hb'
        have hbne : b ≠ b' := fun h => hbmem (h ▸ hb')
        simp [setInstance, alook_aput, hbne]
      have hres := ih (setInstance b (closeInst inst).2
          { s with closedLog := s.closedLog ++ [b] }) hnd'
        (fun b' i hb' hai =>
          hok b' i (List.mem_cons_of_mem b hb') (by rw [← hkeys b' hb']; exact hai))
      refine ⟨hres.1, ?_⟩
      rw [hres.2]
      have hfc : rest.filter (fun b' =>
          (alook (setInstance b (closeInst inst).2
            { s with closedLog := s.closedLog ++ [b] }).instances b').isSome)
          = rest.filter (fun b' => (alook s.instances b').isSome) :=
        List.filter_congr (fun b' hb' => by rw [hkeys b' hb'])
      rw [hfc, List.filter_cons]
      simp [setInstance, hbi]

theorem genclose_ne_rtc (p : GenProvState) :
    (GeneratorProvider.close p).1 ≠ .error .runtimeClosed := by
  unfold GeneratorProvider.close
  split
  · simp
  · split
    · rename_i e heq
      split at heq
      · unfold gclose at heq
        split at heq
        · simp at heq
        · split at heq
          · rw [show e = JErr.ignoredExit from by simpa using heq.symm]
            simp
          · simp at heq
      · simp at heq
    · rename_i g' heq
      split
      · simp
      · simp

theorem closeInst_ne_rtc (i : Inst)
    (h : ∀ gf cfn, i = .providerObj gf cfn → cfn ≠ .error .runtimeClosed) :
    (closeInst i).1 ≠ .error .runtimeClosed := by
  cases i with
  | providerObj gf cfn => exact h gf cfn rfl
  | genProvider p => exact genclose_ne_rtc p

theorem closeLoop_ne_rtc (l : List Obj) (s : InjState) (hinv : noRTC s) :
    (closeLoop l s).1 ≠ .error .runtimeClosed ∧ noRTC (closeLoop l s).2 := by
  induction l generalizing s with
  | nil => exact ⟨by simp [closeLoop], hinv⟩
  | cons b rest ih =>
    cases hbi : alook s.instances b with
    | none =>
      simp only [closeLoop, hbi]
      exact ih s hinv
    | some inst =>
      have hirtc : (closeInst inst).1 ≠ .error .runtimeClosed :=
        closeInst_ne_rtc inst (fun gf cfn he => hinv b gf cfn (he ▸ hbi))
      have hinv2 : noRTC (setInstance b (closeInst inst).2
          { s with closedLog := s.closedLog ++ [b] }) := by
        intro b' gf cfn hai
        by_cases hb : b = b'
        · subst hb
          rw [show alook (setInstance b (closeInst inst).2
              { s with closedLog := s.closedLog ++ [b] }).instances b
              = some (closeInst inst).2 from by simp [setInstance, alook_aput_self]] at hai
          cases inst with
          | providerObj g c =>
            have hc : (closeInst (Inst.providerObj g c)).2 = .providerObj g c := rfl
            rw [hc] at hai
            have h1 : g = gf ∧ c = cfn := by
              have := hai
              simp at this
              exact this
            exact h1.2 ▸ hinv b g c hbi
          | genProvider p => simp [closeInst] at hai
        · rw [show alook (setInstance b (closeInst inst).2
              { s with closedLog := s.closedLog ++ [b] }).instances b'
              = alook s.instances b' from by simp [setInstance, alook_aput, hb]] at hai
          exact hinv b' gf cfn hai
      cases hr : (closeInst inst).1 with
      | error e =>
        simp only [closeLoop, hbi, hr]
        constructor
        · intro heq
          rw [hr] at hirtc
          simp at heq
          exact hirtc (by rw [heq])
        · exact hinv2
      | ok u =>
        simp only [closeLoop, hbi, hr]
        exact ih _ hinv2

theorem closeLoop_err_nonempty (l : List Obj) (s : InjState) (e : JErr)
    (h : (closeLoop l s).1 = .error e) :
    l.filter (fun b => (alook s.instances b).isSome) ≠ [] := by
  induction l generalizing s with
  | nil => simp [closeLoop] at h
  | cons b rest ih =>
    cases hbi : alook s.instances b with
    | none =>
      simp only [closeLoop, hbi] at h
      rw [List.filter_cons]
      simp only [hbi, Option.isSome_none, Bool.false_eq_true, if_false]
      exact ih s h
    | some inst =>
      rw [List.filter_cons]
      simp [hbi]

theorem handleProv_ok_in_order {n : Nat} {env : Env} {w : World} {p : PDescr}
    {note b q : Obj} {s : InjState} {v : Obj} {s₁ : InjState}
    (h : handleProv n env w p note s = (.ok v, s₁))
    (hparse : parse_note note = .ok (b, q)) :
    b ∈ s₁.get_order := by
  cases n with
  | zero => simp [handleProv] at h
  | succ m =>
    simp only [handleProv, hparse] at h
    split at h
    · simp at h
    · rename_i v₂ s₂ heq
      split at h
      · rename_i hmem
        simp at h
        obtain ⟨h1, h2⟩ := h
        subst h2
        exact hmem
      · simp at h
        obtain ⟨h1, h2⟩ := h
        subst h2
        simp

theorem getResolve_ok_in_order {n : Nat} {env : Env} {w : World}
    {note b q : Obj} {s : InjState} {v : Obj} {s₁ : InjState}
    (h : getResolve n env w note s = (.ok v, s₁))
    (hparse : parse_note note = .ok (b, q))
    (hmiss : q = Obj.none → alook s.values b = Option.none) :
    b ∈ s₁.get_order := by
  cases n with
  | zero => simp [getResolve] at h
  | succ m =>
    simp only [getResolve, hparse] at h
    have hnone : (if q = Obj.none then alook s.values b else Option.none) = Option.none := by
      by_cases hq : q = Obj.none
      · simp [hq, hmiss hq]
      · simp [hq]
    rw [hnone] at h
    have h2 : (match lookupNS env.reg env.mro b with
      | Option.none => (Except.error (JErr.unresolvable note), s)
      | some p => handleProv m env w p note s) = (Except.ok v, s₁) := h
    split at h2
    · simp at h2
    · exact handleProv_ok_in_order h2 hparse

/-- After a successful resolution that was not served from the memo cache
and was not a directive, the base note is in `get_order`. -/
theorem get_ok_in_order {f : Nat} {env : Env} {w : World}
    {note b q : Obj} {s : InjState} {v : Obj} {s₁ : InjState}
    (h : get f env w note s = (.ok v, s₁))
    (hparse : parse_note note = .ok (b, q))
    (hdir : isDirective note = false)
    (hmiss : q = Obj.none → alook s.values b = Option.none) :
    b ∈ s₁.get_order := by
  cases f with
  | zero => simp [get] at h
  | succ m =>
    have hmiss1 : q = Obj.none → alook (bumpStats note s).values b = Option.none := by
      intro hq
      simpa [bumpStats] using hmiss hq
    simp only [get] at h
    split at h
    · simp at h
    · split at h
      · rename_i d payload
        simp only [isDirective] at hdir
        split at h
        · rename_i hcond
          rw [hcond] at hdir
          simp at hdir
        · split at h
          · rename_i hcond2
            rw [hcond2] at hdir
            simp at hdir
          · exact getResolve_ok_in_order h hparse hmiss1
      · exact getResolve_ok_in_order h hparse hmiss1

/-- C7: once `close` succeeds the injector is closed for good. The closed
flag is set; a second `close` fails with the injector-closed
`RuntimeError` and changes nothing; and every subsequent `get` fails with
the same error before any statistics update or resolution, with the state
returned untouched. -/
theorem closed_for_good (s s₁ : InjState) :
    close s = (.ok (), s₁) →
    s₁.closed = true ∧
    close s₁ = (.error .runtimeClosed, s₁) ∧
    ∀ (f : Nat) (env : Env) (w : World) (note : Obj),
      get (f+1) env w note s₁ = (.error .runtimeClosed, s₁) := by
  intro hc
  have h1 : s₁.closed = true := by
    simp only [close] at hc
    split at hc
    · simp at hc
    · split at hc
      · rename_i s₂ heq
        simp at hc
        rw [← hc]
      · simp at hc
  refine ⟨h1, ?_, ?_⟩
  · simp [close, h1]
  · intro f env w note
    simp [get, h1]

/-- Witness for the closed-for-good theorem: closing a fresh injector
succeeds, re-closing it raises the injector-closed error, and a `get`
afterwards raises it too. -/
theorem closed_for_good_witness :
    (close InjState.init).2.closed = true ∧
    close (close InjState.init).2 = (.error .runtimeClosed, (close InjState.init).2) ∧
    get 1 envXY [] (.str "x") (close InjState.init).2
      = (.error .runtimeClosed, (close InjState.init).2) := by
  have h := closed_for_good InjState.init (close InjState.init).2 rfl
  exact ⟨h.1, h.2.1, h.2.2 0 envXY [] (.str "x")⟩

/-- C2: close order. First conjunct: resolution keeps `get_order` free of
duplicates, so a base note enters it at most once. Second conjunct: a
successful non-directive resolution that was not a memo hit records its
base note in `get_order`, whatever the qualifier. Third conjunct: on an
open injector whose instances close cleanly, `close` succeeds, closes
exactly the base notes of `get_order` that have a live instance — plain
value-producing functions left no instance and are skipped — in reverse
`get_order` order, each exactly once (the attempted sequence `closeSeq`
has no duplicates), and then sets the closed flag. -/
theorem close_closes_reverse_of_construction
    (s s₁ : InjState) (f : Nat) (env : Env) (w : World) (note b q v : Obj) :
    (s.get_order.Nodup → (get f env w note s).2.get_order.Nodup) ∧
    (get f env w note s = (.ok v, s₁) → parse_note note = .ok (b, q) →
      isDirective note = false → (q = Obj.none → alook s.values b = Option.none) →
      b ∈ s₁.get_order) ∧
    (s.closed = false → s.get_order.Nodup →
      (∀ b' inst, alook s.instances b' = some inst → (closeInst inst).1 = .ok ()) →
      (close s).1 = .ok () ∧
      (close s).2.closedLog = s.closedLog ++ closeSeq s ∧
      (close s).2.closed = true ∧
      (closeSeq s).Nodup) := by
  refine ⟨?_, ?_, ?_⟩
  · intro hnd
    exact (pres_get f env w note s).nodup hnd
  · intro h hparse hdir hmiss
    exact get_ok_in_order h hparse hdir hmiss
  · intro hclosed hnd hok
    have hrev : s.get_order.reverse.Nodup := List.nodup_reverse.mpr hnd
    have hall := closeLoop_all_ok s.get_order.reverse s hrev
      (fun b' i _ hai => hok b' i hai)
    have hseq : (closeSeq s).Nodup := hrev.filter _
    cases hcl : closeLoop s.get_order.reverse s with
    | mk r s₂ =>
      rw [hcl] at hall
      simp only at hall
      obtain ⟨hr, hlog⟩ := hall
      subst hr
      have hcl2 : close s = (.ok (), { s₂ with closed := true }) := by
        simp only [close, hclosed, Bool.false_eq_true, if_false, hcl]
      rw [hcl2]
      exact ⟨rfl, by simpa [closeSeq] using hlog, rfl, hseq⟩

/-- Witness for the close-order theorem: `x` enters `get_order` on its
first resolution; closing an injector that resolved `a` then `b` from
generator providers succeeds and closes `b` then `a`. -/
theorem close_closes_reverse_witness :
    (.str "x") ∈ (get 10 envXY [] (.str "x") InjState.init).2.get_order ∧
    (close sAB).1 = .ok () ∧
    (close sAB).2.closedLog = [.str "b", .str "a"] := by
  have hok : ∀ b' inst, alook sAB.instances b' = some inst → (closeInst inst).1 = .ok () := by
    intro b' i hai
    have hm := alook_mem hai
    have : (b', i) ∈ [((Obj.str "a"), Inst.genProvider (gpOne 1)),
        ((Obj.str "b"), Inst.genProvider (gpOne 2))] := hm
    rcases List.mem_cons.mp this with h1 | h1
    · cases h1
      rfl
    · rcases List.mem_cons.mp h1 with h2 | h2
      · cases h2
        rfl
      · simp at h2
  have h := (close_closes_reverse_of_construction sAB InjState.init 10 envXY []
    (.str "x") (.str "x") Obj.none (.int 6)).2
  have h2 := (close_closes_reverse_of_construction InjState.init
    (get 10 envXY [] (.str "x") InjState.init).2 10 envXY []
    (.str "x") (.str "x") Obj.none (.int 6)).2.1 rfl (by decide) (by decide) (fun _ => rfl)
  have h3 := h.2 rfl (by decide) hok
  exact ⟨h2, h3.1, by rw [h3.2.1]; rfl⟩

/-- C9: `Injector.close` is not atomic on provider failure. If closing
fails with a provider error, the closed flag stays `false`; a second
`close` is permitted (it cannot fail with the injector-closed error, given
that no provider close itself produces that error); the teardown targets
(`get_order` and which base notes hold instances) are unchanged; the first
call did record close attempts (the instances closed before the failing
one stay closed); and the second call re-attempts closing, recording new
attempts again. -/
theorem close_not_atomic (s : InjState) (e : JErr) (s₁ : InjState) :
    s.closed = false →
    close s = (.error e, s₁) →
    noRTC s →
    s₁.closed = false ∧
    (close s₁).1 ≠ .error .runtimeClosed ∧
    s₁.get_order = s.get_order ∧
    (∀ b, (alook s₁.instances b).isSome = (alook s.instances b).isSome) ∧
    s₁.closedLog ≠ s.closedLog ∧
    (close s₁).2.closedLog ≠ s₁.closedLog := by
  intro hclosed hfail hinv
  have hs₁ : closeLoop s.get_order.reverse s = (.error e, s₁) := by
    simp only [close, hclosed, Bool.false_eq_true, if_false] at hfail
    cases hcl : closeLoop s.get_order.reverse s with
    | mk r s₂ =>
      rw [hcl] at hfail
      cases r with
      | error e2 =>
        simp at hfail
        rw [hfail.1, hfail.2]
      | ok u => simp at hfail
  have hflag : s₁.closed = false := by
    have := closeLoop_closed s.get_order.reverse s
    rw [hs₁] at this
    simpa [hclosed] using this
  have horder : s₁.get_order = s.get_order := by
    have := closeLoop_order s.get_order.reverse s
    rw [hs₁] at this
    exact this
  have hkeys : ∀ b, (alook s₁.instances b).isSome = (alook s.instances b).isSome := by
    intro b
    have := closeLoop_instKeys s.get_order.reverse s b
    rw [hs₁] at this
    exact this
  have hlogged : s₁.closedLog ≠ s.closedLog := by
    have := closeLoop_err_logged s.get_order.reverse s e (by rw [hs₁])
    rw [hs₁] at this
    exact this
  have hinv₁ : noRTC s₁ := by
    have := (closeLoop_ne_rtc s.get_order.reverse s hinv).2
    rw [hs₁] at this
    exact this
  have hne2 : s₁.get_order.reverse.filter (fun b => (alook s₁.instances b).isSome) ≠ [] := by
    have hne := closeLoop_err_nonempty s.get_order.reverse s e (by rw [hs₁])
    rw [horder]
    have hfc : s.get_order.reverse.filter (fun b => (alook s₁.instances b).isSome)
        = s.get_order.reverse.filter (fun b => (alook s.instances b).isSome) :=
      List.filter_congr (fun b _ => hkeys b)
    rw [hfc]
    exact hne
  refine ⟨hflag, ?_, horder, hkeys, hlogged, ?_⟩
  · simp only [close, hflag, Bool.false_eq_true, if_false]
    cases hcl : closeLoop s₁.get_order.reverse s₁ with
    | mk r s₂ =>
      have hrtc := (closeLoop_ne_rtc s₁.get_order.reverse s₁ hinv₁).1
      rw [hcl] at hrtc
      cases r with
      | error e2 =>
        simp only []
        intro heq
        simp at heq
        exact hrtc (by rw [heq])
      | ok u => simp
  · have hatt := closeLoop_attempts s₁.get_order.reverse s₁ hne2
    simp only [close, hflag, Bool.false_eq_true, if_false]
    cases hcl : closeLoop s₁.get_order.reverse s₁ with
    | mk r s₂ =>
      rw [hcl] at hatt
      cases r with
      | error e2 => exact hatt
      | ok u => simpa using hatt

/-- Witness for the non-atomic-close theorem: with `c` raising on close,
the failed close leaves the injector open, a second close is not rejected
as already-closed, and it re-attempts closing. -/
theorem close_not_atomic_witness :
    (close sFail).2.closed = false ∧
    (close (close sFail).2).1 ≠ .error .runtimeClosed ∧
    (close (close sFail).2).2.closedLog ≠ (close sFail).2.closedLog := by
  have hinv : noRTC sFail := by
    intro b gf cfn hai
    have hm := alook_mem hai
    rcases List.mem_cons.mp hm with h1 | h1
    · simp at h1
    · rcases List.mem_cons.mp h1 with h2 | h2
      · simp only [Prod.mk.injEq, Inst.providerObj.injEq] at h2
        rw [h2.2.2]
        simp
      · simp at h2
  have h := close_not_atomic sFail (.custom "boom") (close sFail).2 rfl rfl hinv
  exact ⟨h.1, h.2.1, h.2.2.2.2.2⟩

/-- Counterexample to C8 as stated: `GeneratorProvider` keeps no Closed
state, so after a first successful `close`, a second `close` call returns
normally (the generator is exhausted, the resume raises `StopIteration`,
and `close` treats that as success) instead of failing. -/
theorem genprovider_double_close_returns :
    (GeneratorProvider.close (gpOne 7)).1 = .ok () ∧
    (GeneratorProvider.close (GeneratorProvider.close (gpOne 7)).2).1 = .ok () :=
  ⟨rfl, rfl⟩

/-- C8 amended: `GeneratorProvider.close` fails with the not-initialized
`RuntimeError` before `init`; when the routine suspends again instead of
terminating it fails with the did-not-stop `RuntimeError`; but the adapter
records no Closed state, so a close following a successful close returns
normally rather than failing. -/
theorem genprovider_close_amended (p : GenProvState) (v : Obj) (g' : GenCode) :
    (p.initialized = false → GeneratorProvider.close p = (.error .notInitialized, p)) ∧
    (p.initialized = true → p.support_name = false →
      gnext p.generator Obj.none = (some v, g') →
      GeneratorProvider.close p = (.error .didNotStop, { p with generator := g' })) ∧
    (p.initialized = true → (GeneratorProvider.close p).1 = .ok () →
      (GeneratorProvider.close (GeneratorProvider.close p).2).1 = .ok ()) := by
  refine ⟨?_, ?_, ?_⟩
  · intro hinit
    simp [GeneratorProvider.close, hinit]
  · intro hinit hsn hgn
    simp [GeneratorProvider.close, hinit, hsn, hgn]
  · intro hinit hok
    cases hcg : (if p.support_name then gclose p.generator else .ok p.generator) with
    | error e =>
      exfalso
      simp [GeneratorProvider.close, hinit, hcg] at hok
    | ok g₂ =>
      cases hgn : gnext g₂ Obj.none with
      | mk y g₃ =>
        cases y with
        | some yy =>
          exfalso
          simp [GeneratorProvider.close, hinit, hcg, hgn] at hok
        | none =>
          have hdone : g₃ = .done := by
            unfold gnext at hgn
            split at hgn
            · injection hgn with ha hb
              exact hb.symm
            · split at hgn
              · injection hgn with ha hb
                exact hb.symm
              · simp at hgn
          subst hdone
          have hcp : GeneratorProvider.close p = (.ok (), { p with generator := .done }) := by
            simp [GeneratorProvider.close, hinit, hcg, hgn]
          rw [hcp]
          by_cases hsn : p.support_name <;>
            simp [GeneratorProvider.close, hinit, hsn, gclose, gnext]

/-- Witness for the amended lifecycle theorem at concrete providers: close
before init fails, a generator that yields again fails with did-not-stop,
and a second close after a successful close returns normally. -/
theorem genprovider_close_amended_witness :
    GeneratorProvider.close gpU = (.error .notInitialized, gpU) ∧
    GeneratorProvider.close gpBad = (.error .didNotStop, { gpBad with generator := .done }) ∧
    (GeneratorProvider.close (GeneratorProvider.close (gpOne 7)).2).1 = .ok () := by
  refine ⟨?_, ?_, ?_⟩
  · exact (genprovider_close_amended gpU .none .done).1 rfl
  · exact (genprovider_close_amended gpBad (.int 1) .done).2.1 rfl rfl rfl
  · exact (genprovider_close_amended (gpOne 7) .none .done).2.2 rfl rfl

theorem splitFirstColon_of_not_mem (cs : List Char) (h : ¬ ':' ∈ cs) :
    splitFirstColon cs = Option.none := by
  induction cs with
  | nil => rfl
  | cons c rest ih =>
    have hc : ¬ c = ':' := fun hx => h (by simp [hx])
    have hr : ¬ ':' ∈ rest := fun hx => h (List.mem_cons_of_mem c hx)
    simp [splitFirstColon, hc, ih hr]

theorem splitFirstColon_append (l r : List Char) (h : ¬ ':' ∈ l) :
    splitFirstColon (l ++ ':' :: r) = some (l, r) := by
  induction l with
  | nil => simp [splitFirstColon]
  | cons c rest ih =>
    have hc : ¬ c = ':' := fun hx => h (by simp [hx])
    have hr : ¬ ':' ∈ rest := fun hx => h (List.mem_cons_of_mem c hx)
    simp [splitFirstColon, hc, ih hr]

/-- Counterexample to C6 as stated: parsing a string that ends in `:`
yields the empty-string qualifier, not a null one, and such a note does
not behave as an unqualified request — with the unqualified value for `n`
already cached, `Get("n:")` bypasses the cache and invokes the provider
with the empty name, observably returning the name-sensitive value. -/
theorem parse_trailing_colon_counterexample :
    parse_note (.str "n:") = .ok (.str "n", .str "") ∧
    Obj.str "" ≠ Obj.none ∧
    alook sColon.values (.str "n") = some (.int 1) ∧
    (get 10 envColon [] (.str "n:") sColon).1 = .ok (.int 2) := by
  refine ⟨by decide, by decide, by decide, by decide⟩

theorem stripTrailingNewline_of_not_mem {cs : List Char} (h : ¬ '\n' ∈ cs) :
    stripTrailingNewline cs = cs := by
  unfold stripTrailingNewline
  cases hl : cs.getLast? with
  | none => rfl
  | some c =>
    have hmem : c ∈ cs.getLast? := Option.mem_def.mpr hl
    obtain ⟨hnil, hx⟩ := List.mem_getLast?_eq_getLast hmem
    have hc : c ∈ cs := hx ▸ List.getLast_mem hnil
    have hne : ¬ c = '\n' := fun hx2 => h (hx2 ▸ hc)
    simp [hne]

theorem stripTrailingNewline_concat (l : List Char) :
    stripTrailingNewline (l ++ ['\n']) = l := by
  unfold stripTrailingNewline
  rw [show l ++ ['\n'] = l.concat '\n' from (List.concat_eq_append l '\n').symm]
  simp [List.getLast?_concat, List.dropLast_concat]

/-- C6 amended: a string note is matched against the regex `re_note`,
whose anchors strip at most one trailing newline; if any other newline
remains the regex does not match and parsing raises `AttributeError`.
Otherwise the token is split at its first `':'`: the qualifier is null
exactly when no colon is present, and when a colon is present the
qualifier is everything right of it — including the empty string for a
token ending in `':'`, which is then a qualified request, not an
unqualified one. -/
theorem parse_note_splits_first_colon (l r : List Char) (s : String) :
    (¬ ':' ∈ s.toList → ¬ '\n' ∈ s.toList →
      parse_note (.str s) = .ok (.str s, Obj.none)) ∧
    (¬ ':' ∈ l → ¬ '\n' ∈ l → ¬ '\n' ∈ r →
      parse_note (.str (String.mk (l ++ ':' :: r)))
        = .ok (.str (String.mk l), .str (String.mk r))) ∧
    (¬ ':' ∈ l → ¬ '\n' ∈ l →
      parse_note (.str (String.mk (l ++ ['\n'])))
        = .ok (.str (String.mk l), Obj.none)) ∧
    ('\n' ∈ stripTrailingNewline s.toList →
      parse_note (.str s)
        = .error (.attrErr "NoneType object has no attribute groups")) := by
  refine ⟨?_, ?_, ?_, ?_⟩
  · intro h hn
    have hn2 : ¬ '\n' ∈ s.data := hn
    have hstrip : stripTrailingNewline s.data = s.data := stripTrailingNewline_of_not_mem hn
    have hsp : splitFirstColon s.data = Option.none := splitFirstColon_of_not_mem s.toList h
    simp [parse_note, Obj.asTuple, re_note_match, hstrip, hn2, hsp]
  · intro h hnl hnr
    have hnc : ¬ '\n' ∈ (l ++ ':' :: r) := by
      intro hx
      rcases List.mem_append.mp hx with h1 | h1
      · exact hnl h1
      · rcases List.mem_cons.mp h1 with h2 | h2
        · exact absurd h2 (by decide)
        · exact hnr h2
    have hstrip := stripTrailingNewline_of_not_mem hnc
    have hsp := splitFirstColon_append l r h
    simp [parse_note, Obj.asTuple, re_note_match, hstrip, hnc, hsp]
  · intro h hnl
    have hstrip := stripTrailingNewline_concat l
    have hnl2 : ¬ '\n' ∈ l := hnl
    have hsp : splitFirstColon l = Option.none := splitFirstColon_of_not_mem l h
    simp [parse_note, Obj.asTuple, re_note_match, hstrip, hnl2, hsp]
  · intro h
    have h2 : '\n' ∈ stripTrailingNewline s.data := h
    simp [parse_note, Obj.asTuple, re_note_match, h2]

/-- Witness for the amended parsing theorem: a colon-free token keeps a
null qualifier; a trailing-colon token gets the empty qualifier; a
trailing newline is stripped before parsing; and an internal newline
makes parsing fail with `AttributeError`. -/
theorem parse_note_splits_first_colon_witness :
    parse_note (.str "abc") = .ok (.str "abc", Obj.none) ∧
    parse_note (.str (String.mk (['n'] ++ ':' :: [])))
      = .ok (.str (String.mk ['n']), .str (String.mk [])) ∧
    parse_note (.str (String.mk (['a'] ++ ['\n'])))
      = .ok (.str (String.mk ['a']), Obj.none) ∧
    parse_note (.str "a\nb")
      = .error (.attrErr "NoneType object has no attribute groups") := by
  refine ⟨?_, ?_, ?_, ?_⟩
  · exact (parse_note_splits_first_colon [] [] "abc").1 (by decide) (by decide)
  · exact (parse_note_splits_first_colon ['n'] [] "").2.1 (by decide) (by decide) (by decide)
  · exact (parse_note_splits_first_colon ['a'] [] "").2.2.1 (by decide) (by decide)
  · exact (parse_note_splits_first_colon [] [] "a\nb").2.2.2 (by decide)

theorem processKws_absent_key :
    ∀ (n : Nat) (kws acc : List (String × Obj)) (s : InjState)
      (kwargs : List (String × Obj)) (s₂ : InjState) (env : Env) (w : World) (flag : Bool),
    processKws n env w kws flag acc s = (.ok kwargs, s₂) →
    ∀ a, a ∉ kws.map Prod.fst → alook acc a = Option.none →
    alook kwargs a = Option.none := by
  intro n
  induction n with
  | zero =>
    intro kws acc s kwargs s₂ env w flag h a ha hacc
    cases kws with
    | nil =>
      simp [processKws] at h
      rw [← h.1]
      exact hacc
    | cons hd tl => simp [processKws] at h
  | succ m ih =>
    intro kws acc s kwargs s₂ env w flag h a ha hacc
    cases kws with
    | nil =>
      simp [processKws] at h
      rw [← h.1]
      exact hacc
    | cons hd tl =>
      obtain ⟨a', note⟩ := hd
      have ha' : a' ≠ a := by
        intro hx
        exact ha (by simp [hx])
      have hatl : a ∉ tl.map Prod.fst := fun hx => ha (by simp [hx])
      simp only [processKws] at h
      split at h
      · split at h
        · exact ih tl _ _ kwargs s₂ env w flag h a hatl (by rw [alook_aput, if_neg ha']; exact hacc)
        · split at h
          · exact ih tl _ _ kwargs s₂ env w flag h a hatl hacc
          · simp at h
      · split at h
        · split at h
          · exact ih tl _ _ kwargs s₂ env w flag h a hatl
              (by rw [alook_aput, if_neg ha']; exact hacc)
          · split at h
            · exact ih tl _ _ kwargs s₂ env w flag h a hatl hacc
            · simp at h
        · split at h
          · exact ih tl _ _ kwargs s₂ env w flag h a hatl
              (by rw [alook_aput, if_neg ha']; exact hacc)
          · simp at h

/-- C5: error handling during argument preparation. First conjunct: a
`maybe`-wrapped keyword note whose resolution fails with a
`LookupError`-class error is skipped — processing continues on the
remaining keywords with the keyword dictionary unchanged, and the final
keyword set cannot contain the dropped key (it is omitted entirely, not
defaulted). Second conjunct: a positional note that fails to resolve makes
the whole preparation fail with that error. Third conjunct: outside
partial application, a non-`maybe` keyword note that fails to resolve also
fails the preparation. -/
theorem maybe_dropped_positional_fatal
    (f : Nat) (env : Env) (w : World) (pnote note : Obj) (a : String)
    (rest : List (String × Obj)) (restNotes : List Obj) (kws : List (String × Obj))
    (flag : Bool) (acc : List (String × Obj)) (s s₁ : InjState) (e : JErr) :
    (get f env w pnote s = (.error e, s₁) → e.isLookupError = true →
      a ∉ rest.map Prod.fst → alook acc a = Option.none →
      processKws (f+1) env w ((a, Obj.tup [.str "maybe", pnote]) :: rest) flag acc s
        = processKws f env w rest flag acc s₁ ∧
      ∀ kwargs s₂, processKws f env w rest flag acc s₁ = (.ok kwargs, s₂) →
        alook kwargs a = Option.none) ∧
    (get f env w note s = (.error e, s₁) →
      prepareNotes (f+2) env w (note :: restNotes) kws false s = (.error e, s₁)) ∧
    (maybePayload note = Option.none → get f env w note s = (.error e, s₁) →
      processKws (f+1) env w ((a, note) :: rest) false acc s = (.error e, s₁)) := by
  refine ⟨?_, ?_, ?_⟩
  · intro hget hle ha hacc
    have hmp : maybePayload (Obj.tup [.str "maybe", pnote]) = some pnote := rfl
    constructor
    · simp only [processKws, hmp, hget, hle, if_true]
    · intro kwargs s₂ h
      exact processKws_absent_key f rest acc s₁ kwargs s₂ env w flag h a ha hacc
  · intro hget
    have hpos : processPos (f+1) env w (note :: restNotes) s = (.error e, s₁) := by
      simp only [processPos, hget]
    simp only [prepareNotes, hpos]
  · intro hmn hget
    simp only [processKws, hmn, hget, Bool.false_eq_true, if_false]

/-- Witness for the preparation error-handling theorem: with the base note
`miss` unregistered, a maybe-wrapped `miss` keyword is dropped so the
keyword set is empty; a positional `miss` makes preparation fail; a
non-maybe keyword `miss` makes it fail too. -/
theorem maybe_dropped_positional_fatal_witness :
    (processKws 6 envXY [] [("k", Obj.tup [.str "maybe", .str "miss"])] false []
      InjState.init).1 = .ok [] ∧
    (prepareNotes 7 envXY [] [.str "miss"] [] false InjState.init).1
      = .error (.unresolvable (.str "miss")) ∧
    (processKws 6 envXY [] [("k", .str "miss")] false [] InjState.init).1
      = .error (.unresolvable (.str "miss")) := by
  have h := maybe_dropped_positional_fatal 5 envXY [] (.str "miss") (.str "miss") "k"
    [] [] [] false [] InjState.init (get 5 envXY [] (.str "miss") InjState.init).2
    (.unresolvable (.str "miss"))
  refine ⟨?_, ?_, ?_⟩
  · rw [(h.1 rfl (by decide) (by decide) rfl).1]
    rfl
  · rw [h.2.1 rfl]
  · rw [h.2.2 rfl rfl]

/-- C10: a `(MAYBE, note)` tuple passed directly to `Get` is not optional
resolution. It is parsed as base note `maybe` with the payload as
qualifier, so when no provider is registered under the base note `maybe`
anywhere in the chain, `Get` fails with the `Unresolvable`-class error
(having only recorded the request statistics). The `maybe` directive is
honored only during keyword-note resolution, where a resolvable payload is
resolved and bound to the keyword. -/
theorem maybe_tuple_in_get_unresolvable
    (f : Nat) (env : Env) (w : World) (p pnote : Obj) (s s₁ : InjState) (a : String)
    (rest acc : List (String × Obj)) (flag : Bool) (v : Obj) :
    (s.closed = false → p ≠ Obj.none →
      lookupNS env.reg env.mro (.str "maybe") = Option.none →
      get (f+2) env w (Obj.tup [.str "maybe", p]) s
        = (.error (.unresolvable (Obj.tup [.str "maybe", p])),
           bumpStats (Obj.tup [.str "maybe", p]) s)) ∧
    (get f env w pnote s = (.ok v, s₁) →
      processKws (f+1) env w ((a, Obj.tup [.str "maybe", pnote]) :: rest) flag acc s
        = processKws f env w rest flag (aput acc a v) s₁) := by
  constructor
  · intro hclosed hp hlook
    have hparse : parse_note (Obj.tup [.str "maybe", p]) = .ok (.str "maybe", p) := rfl
    have h1 : get (f+2) env w (Obj.tup [.str "maybe", p]) s
        = getResolve (f+1) env w (Obj.tup [.str "maybe", p])
            (bumpStats (Obj.tup [.str "maybe", p]) s) := by
      simp [get, hclosed, Obj.tup]
    rw [h1]
    simp only [getResolve, hparse]
    have hmemo : (if p = Obj.none
        then alook (bumpStats (Obj.tup [.str "maybe", p]) s).values (.str "maybe")
        else Option.none) = Option.none := by simp [hp]
    rw [hmemo, hlook]
  · intro hget
    have hmp : maybePayload (Obj.tup [.str "maybe", pnote]) = some pnote := rfl
    simp only [processKws, hmp, hget]

/-- Witness for the maybe-tuple theorem: with no provider registered under
`maybe`, `Get(('maybe', 'x'))` fails as unresolvable even though `x`
itself is resolvable, while keyword processing resolves the same wrapped
payload to 6 and binds it. -/
theorem maybe_tuple_in_get_unresolvable_witness :
    get 2 envXY [] (Obj.tup [.str "maybe", .str "x"]) InjState.init
      = (.error (.unresolvable (Obj.tup [.str "maybe", .str "x"])),
         bumpStats (Obj.tup [.str "maybe", .str "x"]) InjState.init) ∧
    (processKws 11 envXY [] [("k", Obj.tup [.str "maybe", .str "x"])] false []
      InjState.init).1 = .ok [("k", .int 6)] := by
  have h := maybe_tuple_in_get_unresolvable 10 envXY [] (.str "x") (.str "x")
    InjState.init (get 10 envXY [] (.str "x") InjState.init).2 "k" [] [] false (.int 6)
  constructor
  · exact (maybe_tuple_in_get_unresolvable 0 envXY [] (.str "x") (.str "x")
      InjState.init InjState.init "k" [] [] false (.int 6)).1 rfl (by decide) rfl
  · rw [h.2 rfl]
    rfl

/-- C4: the deferred-application wrapper is lazy and caches its
injections. First conjunct: resolving a `partial` directive through `Get`
performs no resolution at all — it only records the request and allocates
a fresh wrapper with an empty `arg_pack` (values, instances, `get_order`
and the invocation counter are all visibly untouched in the resulting
state). Second conjunct: on a first invocation (empty `arg_pack`) the
wrapper resolves the target's annotation with the partial flag, combines
it with the directive-time bound arguments, caches the pack, and calls the
target. Third conjunct: under the partial flag every keyword note is
implicitly optional — a `LookupError`-class failure drops the keyword and
processing continues. Fourth conjunct: once the `arg_pack` is cached, an
invocation performs no resolution (the state is returned unchanged) and
uses the cached arguments, so if the target's own body does not read the
mutable world, invocations under different worlds — the provider's value
mutated in between — return identical results. -/
theorem deferred_wrapper_lazy_and_caching
    (f : Nat) (env : Env) (w : World) (payload note : Obj) (fid : Nat)
    (ua ja pa ra : List Obj) (uk jk pk rk acc : List (String × Obj))
    (ann : List Obj × List (String × Obj)) (wid : Nat) (F : FnDef)
    (s s₁ : InjState) (a : String) (rest : List (String × Obj)) (e : JErr) :
    (s.closed = false → decodeDirPayload payload = some (fid, ua, uk) →
      (env.fns fid).notes = some ann →
      get (f+1) env w (Obj.tup [.str "partial", payload]) s
        = (.ok (.wrapper s.wrappers.length),
           { bumpStats (Obj.tup [.str "partial", payload]) s with
             wrappers := s.wrappers ++ [⟨env.fns fid, ua, uk, Option.none⟩] })) ∧
    (s.wrappers[wid]? = some ⟨F, ua, uk, Option.none⟩ →
      prepareCallable f env w F true s = (.ok (ja, jk), s₁) →
      callWrapper (f+1) env w wid ra rk s
        = (F.call (ja ++ ua ++ ra) (supdate (supdate jk uk) rk) w,
           { s₁ with wrappers :=
              s₁.wrappers.set wid ⟨F, ua, uk, some (ja ++ ua, supdate jk uk)⟩ })) ∧
    (maybePayload note = Option.none → get f env w note s = (.error e, s₁) →
      e.isLookupError = true →
      processKws (f+1) env w ((a, note) :: rest) true acc s
        = processKws f env w rest true acc s₁) ∧
    (s.wrappers[wid]? = some ⟨F, ua, uk, some (pa, pk)⟩ →
      callWrapper (f+1) env w wid ra rk s = (F.call (pa ++ ra) (supdate pk rk) w, s) ∧
      ((∀ args kw wa wb, F.call args kw wa = F.call args kw wb) →
        ∀ (f₂ : Nat) (w₂ : World),
          callWrapper (f+1) env w wid ra rk s = callWrapper (f₂+1) env w₂ wid ra rk s)) := by
  refine ⟨?_, ?_, ?_, ?_⟩
  · intro hclosed hdec hann
    simp only [get, hclosed, Bool.false_eq_true, if_false, Obj.tup]
    simp [mkLazy, hdec, hann, bumpStats]
  · intro hw hprep
    simp only [callWrapper, hw, hprep]
  · intro hmn hget hle
    simp only [processKws, hmn, hget, hle, if_true]
  · intro hw
    constructor
    · simp only [callWrapper, hw]
    · intro hpure f₂ w₂
      have h1 : callWrapper (f+1) env w wid ra rk s
          = (F.call (pa ++ ra) (supdate pk rk) w, s) := by
        simp only [callWrapper, hw]
      have h2 : callWrapper (f₂+1) env w₂ wid ra rk s
          = (F.call (pa ++ ra) (supdate pk rk) w₂, s) := by
        simp only [callWrapper, hw]
      rw [h1, h2, hpure (pa ++ ra) (supdate pk rk) w w₂]

/-- Witness for the deferred-wrapper theorem: resolving the directive
allocates wrapper 0 without resolving `d`; the first invocation under
world `[5]` resolves and returns 5 while caching the pack; the second
invocation under the mutated world `[9]` still returns 5; and a keyword
note under the partial flag is dropped on lookup failure. -/
theorem deferred_wrapper_lazy_and_caching_witness :
    (get 1 envW [.int 5] pdirNote InjState.init).1 = .ok (.wrapper 0) ∧
    (get 1 envW [.int 5] pdirNote InjState.init).2.callCount = [] ∧
    (callWrapper 10 envW [.int 5] 0 [] []
      (get 1 envW [.int 5] pdirNote InjState.init).2).1 = .ok (.int 5) ∧
    (callWrapper 10 envW [.int 9] 0 [] []
      (callWrapper 10 envW [.int 5] 0 [] []
        (get 1 envW [.int 5] pdirNote InjState.init).2).2).1 = .ok (.int 5) ∧
    (processKws 6 envXY [] [("k", .str "miss")] true [] InjState.init).1 = .ok [] := by
  have ha := (deferred_wrapper_lazy_and_caching 0 envW [.int 5]
    (Obj.tup [.fn 0, Obj.tup [], Obj.tup []]) (.str "m") 0 [] [] [] [] [] [] [] [] []
    ([], [("dep", .str "d")]) 0 targetFn InjState.init InjState.init "k" []
    .fuel).1 rfl rfl rfl
  refine ⟨?_, ?_, ?_, ?_, ?_⟩
  · rw [show get 1 envW [.int 5] pdirNote InjState.init
      = get (0+1) envW [.int 5] (Obj.tup [.str "partial",
        Obj.tup [.fn 0, Obj.tup [], Obj.tup []]]) InjState.init from rfl, ha]
    rfl
  · rw [show get 1 envW [.int 5] pdirNote InjState.init
      = get (0+1) envW [.int 5] (Obj.tup [.str "partial",
        Obj.tup [.fn 0, Obj.tup [], Obj.tup []]]) InjState.init from rfl, ha]
    rfl
  · have hb := (deferred_wrapper_lazy_and_caching 9 envW [.int 5]
      (Obj.tup [.fn 0, Obj.tup [], Obj.tup []]) (.str "m") 0 [] [] [] []
      [] [("dep", .int 5)] [] [] []
      ([], [("dep", .str "d")]) 0 targetFn
      (get 1 envW [.int 5] pdirNote InjState.init).2
      (prepareCallable 9 envW [.int 5] targetFn true
        (get 1 envW [.int 5] pdirNote InjState.init).2).2 "k" [] .fuel).2.1 rfl rfl
    rw [hb]
    rfl
  · have hc := (deferred_wrapper_lazy_and_caching 9 envW [.int 9]
      (Obj.tup [.fn 0, Obj.tup [], Obj.tup []]) (.str "m") 0 [] [] [] []
      [] [] [("dep", .int 5)] [] []
      ([], [("dep", .str "d")]) 0 targetFn
      (callWrapper 10 envW [.int 5] 0 [] []
        (get 1 envW [.int 5] pdirNote InjState.init).2).2 InjState.init "k" []
      .fuel).2.2.2 rfl
    rw [hc.1]
    rfl
  · have hmiss := (deferred_wrapper_lazy_and_caching 5 envXY [] (Obj.tup [])
      (.str "miss") 0 [] [] [] [] [] [] [] [] []
      ([], []) 0 targetFn InjState.init
      (get 5 envXY [] (.str "miss") InjState.init).2 "k" []
      (.unresolvable (.str "miss"))).2.2.1 rfl rfl rfl
    rw [hmiss]
    rfl

end Jeni
